import Mathlib

/-!
# Worker pool of `workqueue.go` as a transition system

The Go program is a set of goroutines communicating over channels.  It is
embedded as an interleaving transition system: one state record holding the
channels and the program counter of every goroutine, and one atomic step per
channel operation or statement of `workqueue.go`.

* `queue` (unbuffered, line 16): a send of a caller and the receive of
  `range queue` rendezvous in one step (`Action.accept`).
* `d` (buffered with capacity `numWorkers`, line 17): the FIFO `reg`; a send
  blocks while it is full, a receive while it is empty.
* each `worker` channel (unbuffered, line 40): the send of a match goroutine
  and the receive of `range w` rendezvous in one step (`Action.matchSend`).

The callers are part of the state: `senders` are the units still to be sent,
`queueClosed` is their `close(q)`, and `wg` is the `sync.WaitGroup` of the
tests, set to the number of units and decreased by a unit when its call
begins.  In the tests the unit calls `wg.Done()` somewhere inside the call, so
every run of the tests is a run of `stepW`, in which `close` waits for
`wg = 0`; `step` lets the caller close at any time.

Fields marked "history" record what has happened and are never read by a step.
-/

namespace Workqueue

/-- A value of the Go type `Work` (`func()`): `none` is the nil function,
`some k` is the callable with identity `k`. -/
abbrev Work := Option Nat

/-- Run-time panics of the Go program that the model can raise. -/
inductive Fault
  /-- The panic of `make` for a channel size out of range (line 17). -/
  | makechanSize
  /-- The `panic("nil work received")` of line 81. -/
  | nilWork
  /-- A caller sends on the closed `queue`. -/
  | sendOnClosedQueue
  /-- A match goroutine sends on a closed worker channel (line 49). -/
  | sendOnClosedWorker
  /-- The shutdown loop closes a closed worker channel (line 57). -/
  | closeOfClosedWorker
  deriving DecidableEq

/-- Program counter of the goroutines of one worker (`work` then `wait`). -/
inductive Phase
  /-- In `work`, before `d <- w` (line 68). -/
  | announce
  /-- In `work`, registered, before `go w.wait(d)` (line 71). -/
  | launch
  /-- In `wait`, blocked in the receive of `range w` (line 78). -/
  | idle
  /-- In `wait`, a value was received, before the nil check (line 80). -/
  | got (w : Work)
  /-- In `wait`, inside the call `work()` of unit `u` (line 84). -/
  | busy (u : Nat)
  /-- In `wait`, the call returned, before `d <- w` (line 87). -/
  | rereg
  /-- The loop `range w` has ended; `wait` has returned. -/
  | exited
  deriving DecidableEq

/-- One worker: the program counter of its goroutine and whether its channel
has been closed. -/
structure WorkerSt where
  phase : Phase
  closed : Bool
  deriving DecidableEq

/-- Program counter of `dispatch` and of the main-loop goroutine it starts. -/
inductive Loop
  /-- In `dispatch`, at the test `i < cap(d)` of the loop of line 39. -/
  | spawning (i : Nat)
  /-- In the main loop, blocked in the receive of `range queue` (line 46). -/
  | ranging
  /-- In the shutdown loop, at the test `i < cap(d)` of line 55. -/
  | taking (i : Nat)
  /-- In the shutdown loop, handle `w` received, before `close(w)` (line 57). -/
  | closing (i : Nat) (w : Nat)
  /-- The shutdown loop has ended. -/
  | finished
  deriving DecidableEq

/-- Global state of one pool together with its callers. -/
structure State where
  /-- The capacity `cap(d)` of the dispatcher channel. -/
  cap : Nat
  /-- Whether `queue` has been closed by the caller. -/
  queueClosed : Bool
  /-- Units whose submitting goroutine has not yet completed `q <- unit`. -/
  senders : List Work
  /-- Where `dispatch` and the main loop are. -/
  loop : Loop
  /-- Buffer of the channel `d`, oldest entry first. -/
  reg : List Nat
  /-- Workers created so far, indexed by creation order. -/
  workers : List WorkerSt
  /-- Match goroutines at line 48 (`worker := <-d`), with their unit. -/
  waiting : List Work
  /-- Match goroutines at line 49 (`worker <- work`), with worker and unit. -/
  holding : List (Nat × Work)
  /-- The panic that stopped the process, if any. -/
  fault : Option Fault
  /-- Counter of the caller's `sync.WaitGroup`. -/
  wg : Nat
  /-- History: units received by `range queue`, in order. -/
  accepted : List Work
  /-- History: units whose call `work()` has begun, in order. -/
  started : List Nat
  /-- History: units whose call `work()` has returned, in order. -/
  completed : List Nat
  /-- History: worker handles received by the shutdown loop, in order. -/
  shut : List Nat
  deriving DecidableEq

/-- One atomic step of some goroutine; `i` is a worker, `k` a position in the
list of senders or of match goroutines. -/
inductive Action
  /-- Step of `dispatch`: see `dispatchSpawn`. -/
  | spawn
  /-- Step of `work`: see `workRegister`. -/
  | announce (i : Nat)
  /-- Step of `work`: see `workLaunch`. -/
  | launch (i : Nat)
  /-- Step of the main loop with a caller: see `dispatchAccept`. -/
  | accept (k : Nat)
  /-- Step of the caller: see `callerClose`. -/
  | close
  /-- Step of the main loop: see `dispatchRangeEnds`. -/
  | observeClosed
  /-- Step of a match goroutine: see `matchReceive`. -/
  | matchTake (k : Nat)
  /-- Step of a match goroutine with a worker: see `matchDeliver`. -/
  | matchSend (k : Nat)
  /-- Step of `wait`: see `waitCheck`. -/
  | check (i : Nat)
  /-- Step of `wait`: see `waitReturn`. -/
  | finish (i : Nat)
  /-- Step of `wait`: see `waitRegister`. -/
  | rereg (i : Nat)
  /-- Step of `wait`: see `waitRangeEnds`. -/
  | exit (i : Nat)
  /-- Step of the shutdown loop: see `dispatchShutReceive`. -/
  | shutTake
  /-- Step of the shutdown loop: see `dispatchShutClose`. -/
  | shutClose
  deriving DecidableEq

/-- State right after `go d.dispatch(queue)` (line 18) with the given capacity
of `d`; `units` are the units the callers are going to send, and the callers'
wait group has been set to their number (`wg.Add`). -/
def start (n : Nat) (units : List Work) : State :=
  { cap := n, queueClosed := false, senders := units, loop := .spawning 0,
    reg := [], workers := [], waiting := [], holding := [], fault := none,
    wg := units.length, accepted := [], started := [], completed := [],
    shut := [] }

/-- `New` (lines 15-20).  `make(dispatcher, numWorkers)` (line 17) panics with
"makechan: size out of range" for a negative size and for a size above the
largest channel capacity the Go runtime accepts on the platform; that bound is
not part of this repository and is the parameter `chanLimit` (it is below the
largest `int`, so every size accepted is a Go `int`).  Otherwise the queue is
returned, with `dispatch` started.  The argument `ctx` of line 15 is not used
by the body and has no counterpart here. -/
def New (chanLimit : Nat) (numWorkers : Int) (units : List Work) : Except Fault State :=
  if numWorkers < 0 ∨ (chanLimit : Int) < numWorkers then .error .makechanSize
  else .ok (start numWorkers.toNat units)

/-- Lines 39-45: one iteration of the loop creating workers, or, once
`i = cap(d)`, the `go func()` that starts the main loop. -/
def dispatchSpawn (s : State) : Option State :=
  match s.loop with
  | .spawning i =>
    if i < s.cap then
      some { s with workers := s.workers ++ [⟨.announce, false⟩], loop := .spawning (i + 1) }
    else some { s with loop := .ranging }
  | _ => none

/-- Line 68: `d <- w` in `work`; blocks while the buffer of `d` is full. -/
def workRegister (s : State) (i : Nat) : Option State :=
  match s.workers[i]? with
  | some ⟨.announce, c⟩ =>
    if s.reg.length < s.cap then
      some { s with reg := s.reg ++ [i], workers := s.workers.set i ⟨.launch, c⟩ }
    else none
  | _ => none

/-- Line 71: `go w.wait(d)`; the new goroutine reaches `range w`. -/
def workLaunch (s : State) (i : Nat) : Option State :=
  match s.workers[i]? with
  | some ⟨.launch, c⟩ => some { s with workers := s.workers.set i ⟨.idle, c⟩ }
  | _ => none

/-- Lines 46-47: `range queue` receives the unit of the `k`-th sender and
starts a match goroutine for it. -/
def dispatchAccept (s : State) (k : Nat) : Option State :=
  match s.loop, s.queueClosed, s.senders[k]? with
  | .ranging, false, some u =>
    some { s with senders := s.senders.eraseIdx k, waiting := s.waiting ++ [u],
                  accepted := s.accepted ++ [u] }
  | _, _, _ => none

/-- The caller's `close(q)`, done at most once; senders still blocked on the
queue panic. -/
def callerClose (s : State) : Option State :=
  if s.queueClosed then none
  else if s.senders.isEmpty then some { s with queueClosed := true }
  else some { s with queueClosed := true, fault := some .sendOnClosedQueue }

/-- Line 46 to 55: `range queue` ends because the queue is closed. -/
def dispatchRangeEnds (s : State) : Option State :=
  match s.loop, s.queueClosed with
  | .ranging, true => some { s with loop := .taking 0 }
  | _, _ => none

/-- Line 48: the `k`-th waiting match goroutine receives the oldest handle
of `d`. -/
def matchReceive (s : State) (k : Nat) : Option State :=
  match s.waiting[k]?, s.reg with
  | some u, w :: rest =>
    some { s with waiting := s.waiting.eraseIdx k, reg := rest,
                  holding := s.holding ++ [(w, u)] }
  | _, _ => none

/-- Line 49 with line 78: `worker <- work` meets the receive of `range w`;
sending on a closed channel panics. -/
def matchDeliver (s : State) (k : Nat) : Option State :=
  match s.holding[k]? with
  | some (w, u) =>
    match s.workers[w]? with
    | some ⟨ph, c⟩ =>
      if c then some { s with fault := some .sendOnClosedWorker }
      else if ph = .idle then
        some { s with holding := s.holding.eraseIdx k,
                      workers := s.workers.set w ⟨.got u, c⟩ }
      else none
    | none => none
  | none => none

/-- Lines 80-84: the nil check, then the call `work()` begins (the unit
signals the wait group). -/
def waitCheck (s : State) (i : Nat) : Option State :=
  match s.workers[i]? with
  | some ⟨.got none, _⟩ => some { s with fault := some .nilWork }
  | some ⟨.got (some u), c⟩ =>
    some { s with workers := s.workers.set i ⟨.busy u, c⟩,
                  started := s.started ++ [u], wg := s.wg - 1 }
  | _ => none

/-- Line 84: the call `work()` returns. -/
def waitReturn (s : State) (i : Nat) : Option State :=
  match s.workers[i]? with
  | some ⟨.busy u, c⟩ =>
    some { s with workers := s.workers.set i ⟨.rereg, c⟩,
                  completed := s.completed ++ [u] }
  | _ => none

/-- Line 87: `d <- w` in `wait`; blocks while the buffer of `d` is full. -/
def waitRegister (s : State) (i : Nat) : Option State :=
  match s.workers[i]? with
  | some ⟨.rereg, c⟩ =>
    if s.reg.length < s.cap then
      some { s with reg := s.reg ++ [i], workers := s.workers.set i ⟨.idle, c⟩ }
    else none
  | _ => none

/-- Line 78: `range w` ends because the worker channel is closed. -/
def waitRangeEnds (s : State) (i : Nat) : Option State :=
  match s.workers[i]? with
  | some ⟨.idle, true⟩ => some { s with workers := s.workers.set i ⟨.exited, true⟩ }
  | _ => none

/-- Lines 55-56: the shutdown loop tests `i < cap(d)` and receives the oldest
handle of `d`, or leaves the loop. -/
def dispatchShutReceive (s : State) : Option State :=
  match s.loop with
  | .taking i =>
    if i < s.cap then
      match s.reg with
      | w :: rest => some { s with reg := rest, loop := .closing i w, shut := s.shut ++ [w] }
      | [] => none
    else some { s with loop := .finished }
  | _ => none

/-- Line 57: `close(w)`; closing a closed channel panics. -/
def dispatchShutClose (s : State) : Option State :=
  match s.loop with
  | .closing i w =>
    match s.workers[w]? with
    | some ⟨ph, c⟩ =>
      if c then some { s with fault := some .closeOfClosedWorker }
      else some { s with workers := s.workers.set w ⟨ph, true⟩, loop := .taking (i + 1) }
    | none => none
  | _ => none

/-- One step of the system; nothing runs after a panic. -/
def step (s : State) (a : Action) : Option State :=
  if s.fault.isSome then none else
  match a with
  | .spawn => dispatchSpawn s
  | .announce i => workRegister s i
  | .launch i => workLaunch s i
  | .accept k => dispatchAccept s k
  | .close => callerClose s
  | .observeClosed => dispatchRangeEnds s
  | .matchTake k => matchReceive s k
  | .matchSend k => matchDeliver s k
  | .check i => waitCheck s i
  | .finish i => waitReturn s i
  | .rereg i => waitRegister s i
  | .exit i => waitRangeEnds s i
  | .shutTake => dispatchShutReceive s
  | .shutClose => dispatchShutClose s

/-- One step of the system when the caller closes the queue only after
`wg.Wait()` has returned, as the tests do. -/
def stepW (s : State) (a : Action) : Option State :=
  match a with
  | .close => if s.wg = 0 then step s .close else none
  | _ => step s a

/-- Run a schedule. -/
def run (s : State) : List Action → Option State
  | [] => some s
  | a :: as => (step s a).bind (fun t => run t as)

/-- Run a schedule of a caller that waits before closing. -/
def runW (s : State) : List Action → Option State
  | [] => some s
  | a :: as => (stepW s a).bind (fun t => runW t as)

/-- States some schedule leads to. -/
def Reachable (s0 s : State) : Prop := ∃ as, run s0 as = some s

/-- States some schedule of a caller that waits before closing leads to. -/
def ReachableW (s0 s : State) : Prop := ∃ as, runW s0 as = some s

/-! ## Predicates, invariants and concrete schedules -/

/-- A worker that is in no channel buffer and in nobody's hands. -/
def WorkerSt.away (ws : WorkerSt) : Bool :=
  match ws.phase with
  | .announce | .got _ | .busy _ | .rereg => true
  | _ => false

/-- The worker is at the nil check with a unit in hand. -/
def WorkerSt.isGot (ws : WorkerSt) : Bool :=
  match ws.phase with
  | .got _ => true
  | _ => false

/-- The worker is inside the call `work()`. -/
def WorkerSt.isBusy (ws : WorkerSt) : Bool :=
  match ws.phase with
  | .busy _ => true
  | _ => false

/-- Number of workers created, read off the program counter of `dispatch`. -/
def spawnedOf (cap : Nat) : Loop → Nat
  | .spawning i => i
  | _ => cap

/-- Number of handles the shutdown loop has received, read off its counter. -/
def shutOf (cap : Nat) : Loop → Nat
  | .spawning _ => 0
  | .ranging => 0
  | .taking i => i
  | .closing i _ => i + 1
  | .finished => cap

/-- Whether the shutdown loop holds a handle it has not closed yet. -/
def closingNow : Loop → Nat
  | .closing _ _ => 1
  | _ => 0

/-- Counting invariants of the pool. -/
structure Counts (s : State) : Prop where
  spawned : s.workers.length = spawnedOf s.cap s.loop
  spawned_le : s.workers.length ≤ s.cap
  handles : s.reg.length + s.holding.length + s.shut.length
      + s.workers.countP WorkerSt.away = s.workers.length
  shutLen : s.shut.length = shutOf s.cap s.loop
  shut_le : s.shut.length ≤ s.cap
  closedCount : s.workers.countP WorkerSt.closed + closingNow s.loop = s.shut.length
  wgCount : s.wg = s.senders.length + s.waiting.length + s.holding.length
      + s.workers.countP WorkerSt.isGot
  acceptedCount : s.accepted.length = s.waiting.length + s.holding.length
      + s.workers.countP WorkerSt.isGot + s.started.length
  startedCount : s.started.length = s.workers.countP WorkerSt.isBusy + s.completed.length
  openLoop : s.queueClosed = false → shutOf s.cap s.loop = 0 ∧ closingNow s.loop = 0
      ∧ s.loop ≠ .finished ∧ ∀ i, s.loop ≠ .taking i
  quiet : ∀ i, s.loop = .spawning i → s.accepted = []

/-- Indicator (0 or 1) that worker `i` exists and is away. -/
def awayAt (l : List WorkerSt) (i : Nat) : Nat :=
  match l[i]? with
  | some ws => if ws.away then 1 else 0
  | none => 0

/-- Indicator (0 or 1) that `i` is the index of a created worker. -/
def created (l : List WorkerSt) (i : Nat) : Nat :=
  if i < l.length then 1 else 0

/-- Number of times the call of a unit has begun; the nil unit is never called. -/
def startedOf (started : List Nat) : Work → Nat
  | some k => started.count k
  | none => 0

/-- The worker is at the nil check with unit `u` in hand. -/
def gotIs (u : Work) (ws : WorkerSt) : Bool := decide (ws.phase = .got u)

/-- The worker is inside the call of unit `k`. -/
def busyIs (k : Nat) (ws : WorkerSt) : Bool := decide (ws.phase = .busy k)

/-- Where every worker handle and every unit is. -/
structure Places (units : List Work) (s : State) : Prop where
  once : ∀ i, s.reg.count i + (s.holding.map Prod.fst).count i + s.shut.count i
      + awayAt s.workers i = created s.workers i
  closedShut : ∀ (i : Nat) (ws : WorkerSt), s.workers[i]? = some ws → ws.closed = true →
      i ∈ s.shut ∧ ∀ j, s.loop ≠ .closing j i
  closingShut : ∀ j w, s.loop = .closing j w → w ∈ s.shut
  exitedClosed : ∀ (i : Nat) (ws : WorkerSt), s.workers[i]? = some ws → ws.phase = .exited → ws.closed = true
  unitsAt : ∀ u, s.senders.count u + s.waiting.count u + (s.holding.map Prod.snd).count u
      + s.workers.countP (gotIs u) + startedOf s.started u = units.count u
  runs : ∀ k, s.started.count k = s.workers.countP (busyIs k) + s.completed.count k
  acc : ∀ u, s.senders.count u + s.accepted.count u = units.count u

/-- The two panics that would mean a worker channel was used after its close. -/
def SafeFault (s : State) : Prop :=
  s.fault ≠ some .sendOnClosedWorker ∧ s.fault ≠ some .closeOfClosedWorker

/-- The caller has waited for its wait group before closing the queue. -/
def Waited (s : State) : Prop := s.queueClosed = true → s.wg = 0

/-- The units `0, ..., m - 1`: `m` distinct non-nil callables. -/
def unitsUpTo (m : Nat) : List Work := (List.range m).map some

/-- A complete schedule of a pool of two workers and two units, with a caller
that waits before closing. -/
def fullSchedule : List Action :=
  [.spawn, .spawn, .spawn, .announce 0, .announce 1, .launch 0, .launch 1, .accept 0, .accept 0,
   .matchTake 0, .matchTake 0, .matchSend 0, .matchSend 0, .check 0, .check 1, .close,
   .finish 0, .finish 1, .rereg 1, .rereg 0, .observeClosed, .shutTake, .shutClose, .shutTake,
   .shutClose, .exit 0, .exit 1, .shutTake]

/-- The state `fullSchedule` ends in: everything has shut down. -/
def fullFinal : State :=
  { cap := 2, queueClosed := true, senders := [], loop := .finished, reg := [],
    workers := [⟨.exited, true⟩, ⟨.exited, true⟩], waiting := [], holding := [], fault := none,
    wg := 0, accepted := [some 0, some 1], started := [0, 1], completed := [0, 1],
    shut := [1, 0] }

/-- A schedule in which the caller closes the queue right after its unit was
received, without waiting. -/
def earlyClose : List Action :=
  [.spawn, .spawn, .announce 0, .launch 0, .accept 0, .close, .observeClosed, .shutTake,
   .shutClose]

/-- The state `earlyClose` ends in: the only worker is closed, the unit is
still with a match goroutine at line 48. -/
def dropState : State :=
  { cap := 1, queueClosed := true, senders := [], loop := .taking 1, reg := [],
    workers := [⟨.idle, true⟩], waiting := [some 0], holding := [], fault := none,
    wg := 1, accepted := [some 0], started := [], completed := [], shut := [0] }

/-- The state `earlyClose` followed by the end of the shutdown ends in. -/
def leakState : State :=
  { cap := 1, queueClosed := true, senders := [], loop := .finished, reg := [],
    workers := [⟨.exited, true⟩], waiting := [some 0], holding := [], fault := none,
    wg := 1, accepted := [some 0], started := [], completed := [], shut := [0] }

/-- The worker is in `work`, before its first `d <- w`. -/
def WorkerSt.isAnnounce (ws : WorkerSt) : Bool :=
  match ws.phase with
  | .announce => true
  | _ => false

/-- The worker has received a unit and has not yet re-registered. -/
def WorkerSt.working (ws : WorkerSt) : Bool :=
  match ws.phase with
  | .got _ | .busy _ | .rereg => true
  | _ => false

/-- Number of workers that have received a unit and have not yet
re-registered. -/
def executing (s : State) : Nat := s.workers.countP WorkerSt.working

/-- Number of workers that have never registered: not yet created, or created
and before their first `d <- w`. -/
def unregistered (s : State) : Nat :=
  (s.cap - s.workers.length) + s.workers.countP WorkerSt.isAnnounce

/-- A schedule of a pool of two workers that leads into steady operation. -/
def midSchedule : List Action :=
  [.spawn, .spawn, .spawn, .announce 0, .announce 1, .launch 0, .launch 1, .accept 0,
   .matchTake 0, .matchSend 0, .check 0]

/-- The state `midSchedule` ends in: worker 0 runs unit 0, worker 1 is
registered. -/
def midState : State :=
  { cap := 2, queueClosed := false, senders := [some 1], loop := .ranging, reg := [1],
    workers := [⟨.busy 0, false⟩, ⟨.idle, false⟩], waiting := [], holding := [],
    fault := none, wg := 1, accepted := [some 0], started := [0], completed := [],
    shut := [] }

/-- A schedule of a pool of one worker and two units: the second unit has to
wait. -/
def pressureSchedule : List Action :=
  [.spawn, .spawn, .announce 0, .launch 0, .accept 0, .accept 0, .matchTake 0, .matchSend 0,
   .check 0]

/-- The state `pressureSchedule` ends in: the worker runs unit 0, the match
goroutine of unit 1 is blocked on the empty registry. -/
def pressureState : State :=
  { cap := 1, queueClosed := false, senders := [], loop := .ranging, reg := [],
    workers := [⟨.busy 0, false⟩], waiting := [some 1], holding := [], fault := none,
    wg := 1, accepted := [some 0, some 1], started := [0], completed := [], shut := [] }

/-- A schedule in which the only unit submitted is the nil function. -/
def nilSchedule : List Action :=
  [.spawn, .spawn, .announce 0, .launch 0, .accept 0, .matchTake 0, .matchSend 0]

/-- The state `nilSchedule` ends in: the worker has received the nil unit. -/
def nilState : State :=
  { cap := 1, queueClosed := false, senders := [], loop := .ranging, reg := [],
    workers := [⟨.got none, false⟩], waiting := [], holding := [], fault := none,
    wg := 1, accepted := [none], started := [], completed := [], shut := [] }

/-- The state `nilState` with a non-nil unit in the worker's hand instead. -/
def gotState : State :=
  { cap := 1, queueClosed := false, senders := [], loop := .ranging, reg := [],
    workers := [⟨.got (some 0), false⟩], waiting := [], holding := [], fault := none,
    wg := 1, accepted := [some 0], started := [], completed := [], shut := [] }

/-- A schedule of a pool of two workers in which the unit is matched and begun
while the second worker has not registered. -/
def eagerSchedule : List Action :=
  [.spawn, .spawn, .spawn, .announce 0, .launch 0, .accept 0, .matchTake 0, .matchSend 0,
   .check 0]

/-- The state `eagerSchedule` ends in. -/
def eagerState : State :=
  { cap := 2, queueClosed := false, senders := [], loop := .ranging, reg := [],
    workers := [⟨.busy 0, false⟩, ⟨.announce, false⟩], waiting := [], holding := [],
    fault := none, wg := 0, accepted := [some 0], started := [0], completed := [],
    shut := [] }

/-- A schedule of a pool of three workers and two units, closed by the caller
while unit 0 is being executed and unit 1 is still to be delivered, up to the
moment the shutdown loop has received its first handle. -/
def shutSchedule : List Action :=
  [.spawn, .spawn, .spawn, .spawn, .announce 0, .announce 1, .announce 2, .launch 0,
   .launch 1, .launch 2, .accept 0, .accept 0, .matchTake 0, .matchSend 0, .check 0,
   .matchTake 0, .close, .observeClosed, .shutTake]

/-- The state `shutSchedule` ends in: worker 0 executes unit 0, a match
goroutine holds the handle of worker 1 with unit 1, and the shutdown loop is
about to close worker 2. -/
def shutState : State :=
  { cap := 3, queueClosed := true, senders := [], loop := .closing 0 2, reg := [],
    workers := [⟨.busy 0, false⟩, ⟨.idle, false⟩, ⟨.idle, false⟩], waiting := [],
    holding := [(1, some 1)], fault := none, wg := 1, accepted := [some 0, some 1],
    started := [0], completed := [], shut := [2] }

/-- The state `shutSchedule` followed by `close(w)` ends in: worker 2 is
closed, worker 0 still executes unit 0 and unit 1 is still to be delivered to
worker 1. -/
def shutState2 : State :=
  { cap := 3, queueClosed := true, senders := [], loop := .taking 1, reg := [],
    workers := [⟨.busy 0, false⟩, ⟨.idle, false⟩, ⟨.idle, true⟩], waiting := [],
    holding := [(1, some 1)], fault := none, wg := 1, accepted := [some 0, some 1],
    started := [0], completed := [], shut := [2] }

/-- What stays true from `dropState` on: the registry is empty, the only
worker is closed, and the unit is still with its match goroutine at line 48,
not begun. -/
def Dropped (s : State) : Prop :=
  s.cap = 1 ∧ s.reg = [] ∧ s.holding = [] ∧ s.waiting = [some 0] ∧ s.started = []
    ∧ s.fault = none ∧ s.queueClosed = true ∧ (s.loop = .taking 1 ∨ s.loop = .finished)
    ∧ (s.workers = [⟨.idle, true⟩] ∨ s.workers = [⟨.exited, true⟩])

/-! ## Lemmas on lists -/

theorem countP_set_add {α : Type} (p : α → Bool) :
    ∀ (l : List α) (i : Nat) (a b : α), l[i]? = some b →
      List.countP p (l.set i a) + (if p b then 1 else 0)
        = List.countP p l + (if p a then 1 else 0) := by
  intro l
  induction l with
  | nil => intro i a b h; simp at h
  | cons x xs ih =>
    intro i a b h
    cases i with
    | zero =>
      simp at h
      subst h
      simp [List.countP_cons]
      omega
    | succ j =>
      simp at h
      have := ih j a b h
      simp [List.countP_cons]
      omega

theorem perm_eraseIdx {α : Type} :
    ∀ (l : List α) (k : Nat) (b : α), l[k]? = some b → List.Perm l (b :: l.eraseIdx k) := by
  intro l
  induction l with
  | nil => intro k b h; simp at h
  | cons x xs ih =>
    intro k b h
    cases k with
    | zero => simp at h; subst h; simp
    | succ j =>
      simp at h
      simp only [List.eraseIdx_cons_succ]
      exact ((ih j b h).cons x).trans (List.Perm.swap b x _)

theorem length_eraseIdx_add {α : Type} (l : List α) (k : Nat) (b : α) (h : l[k]? = some b) :
    (l.eraseIdx k).length + 1 = l.length := by
  have := (perm_eraseIdx l k b h).length_eq
  simpa using this.symm

theorem count_eraseIdx_add {α : Type} [BEq α] [LawfulBEq α] (l : List α) (k : Nat) (b a : α)
    (h : l[k]? = some b) :
    List.count a (l.eraseIdx k) + (if b == a then 1 else 0) = List.count a l := by
  have := (perm_eraseIdx l k b h).countP_eq (fun x => x == a)
  simp only [List.count]
  rw [this, List.countP_cons]

/-! ## What a successful step looks like -/

theorem dispatchSpawn_some {s t : State} (h : dispatchSpawn s = some t) :
    ∃ i, s.loop = .spawning i ∧
      ((i < s.cap ∧ t = { s with workers := s.workers ++ [⟨.announce, false⟩],
                                  loop := .spawning (i + 1) })
        ∨ (¬ i < s.cap ∧ t = { s with loop := .ranging })) := by
  unfold dispatchSpawn at h
  split at h
  · next i hl =>
    refine ⟨i, hl, ?_⟩
    split at h
    · next hlt => left; exact ⟨hlt, (Option.some.inj h).symm⟩
    · next hge => right; exact ⟨hge, (Option.some.inj h).symm⟩
  · simp at h

theorem workRegister_some {s t : State} {i : Nat} (h : workRegister s i = some t) :
    ∃ c, s.workers[i]? = some ⟨.announce, c⟩ ∧ s.reg.length < s.cap ∧
      t = { s with reg := s.reg ++ [i], workers := s.workers.set i ⟨.launch, c⟩ } := by
  unfold workRegister at h
  split at h
  · next c hw =>
    split at h
    · next hlt => exact ⟨c, hw, hlt, (Option.some.inj h).symm⟩
    · simp at h
  · simp at h

theorem workLaunch_some {s t : State} {i : Nat} (h : workLaunch s i = some t) :
    ∃ c, s.workers[i]? = some ⟨.launch, c⟩ ∧
      t = { s with workers := s.workers.set i ⟨.idle, c⟩ } := by
  unfold workLaunch at h
  split at h
  · next c hw => exact ⟨c, hw, (Option.some.inj h).symm⟩
  · simp at h

theorem dispatchAccept_some {s t : State} {k : Nat} (h : dispatchAccept s k = some t) :
    ∃ u, s.loop = .ranging ∧ s.queueClosed = false ∧ s.senders[k]? = some u ∧
      t = { s with senders := s.senders.eraseIdx k, waiting := s.waiting ++ [u],
                   accepted := s.accepted ++ [u] } := by
  unfold dispatchAccept at h
  split at h
  · next u hl hq hs => exact ⟨u, hl, hq, hs, (Option.some.inj h).symm⟩
  · simp at h

theorem callerClose_some {s t : State} (h : callerClose s = some t) :
    s.queueClosed = false ∧
      ((s.senders = [] ∧ t = { s with queueClosed := true })
        ∨ (s.senders ≠ [] ∧
            t = { s with queueClosed := true, fault := some .sendOnClosedQueue })) := by
  unfold callerClose at h
  split at h
  · simp at h
  · next hq =>
    refine ⟨by simpa using hq, ?_⟩
    split at h
    · next he => left; exact ⟨by simpa using he, (Option.some.inj h).symm⟩
    · next he => right; exact ⟨by simpa using he, (Option.some.inj h).symm⟩

theorem dispatchRangeEnds_some {s t : State} (h : dispatchRangeEnds s = some t) :
    s.loop = .ranging ∧ s.queueClosed = true ∧ t = { s with loop := .taking 0 } := by
  unfold dispatchRangeEnds at h
  split at h
  · next hl hq => exact ⟨hl, hq, (Option.some.inj h).symm⟩
  · simp at h

theorem matchReceive_some {s t : State} {k : Nat} (h : matchReceive s k = some t) :
    ∃ u w rest, s.waiting[k]? = some u ∧ s.reg = w :: rest ∧
      t = { s with waiting := s.waiting.eraseIdx k, reg := rest,
                   holding := s.holding ++ [(w, u)] } := by
  unfold matchReceive at h
  split at h
  · next u w rest hw hr => exact ⟨u, w, rest, hw, hr, (Option.some.inj h).symm⟩
  · simp at h

theorem matchDeliver_some {s t : State} {k : Nat} (h : matchDeliver s k = some t) :
    ∃ w u ph c, s.holding[k]? = some (w, u) ∧ s.workers[w]? = some ⟨ph, c⟩ ∧
      ((c = true ∧ t = { s with fault := some .sendOnClosedWorker })
        ∨ (c = false ∧ ph = .idle ∧
            t = { s with holding := s.holding.eraseIdx k,
                         workers := s.workers.set w ⟨.got u, c⟩ })) := by
  unfold matchDeliver at h
  split at h
  · next w u hh =>
    split at h
    · next ph c hw =>
      refine ⟨w, u, ph, c, hh, hw, ?_⟩
      split at h
      · next hc => left; exact ⟨hc, (Option.some.inj h).symm⟩
      · next hc =>
        split at h
        · next hp => right; exact ⟨by simpa using hc, hp, (Option.some.inj h).symm⟩
        · simp at h
    · simp at h
  · simp at h

theorem waitCheck_some {s t : State} {i : Nat} (h : waitCheck s i = some t) :
    ∃ c, (s.workers[i]? = some ⟨.got none, c⟩ ∧ t = { s with fault := some .nilWork })
      ∨ ∃ u, s.workers[i]? = some ⟨.got (some u), c⟩ ∧
          t = { s with workers := s.workers.set i ⟨.busy u, c⟩,
                       started := s.started ++ [u], wg := s.wg - 1 } := by
  unfold waitCheck at h
  split at h
  · next c hw => exact ⟨c, Or.inl ⟨hw, (Option.some.inj h).symm⟩⟩
  · next u c hw => exact ⟨c, Or.inr ⟨u, hw, (Option.some.inj h).symm⟩⟩
  · simp at h

theorem waitReturn_some {s t : State} {i : Nat} (h : waitReturn s i = some t) :
    ∃ u c, s.workers[i]? = some ⟨.busy u, c⟩ ∧
      t = { s with workers := s.workers.set i ⟨.rereg, c⟩,
                   completed := s.completed ++ [u] } := by
  unfold waitReturn at h
  split at h
  · next u c hw => exact ⟨u, c, hw, (Option.some.inj h).symm⟩
  · simp at h

theorem waitRegister_some {s t : State} {i : Nat} (h : waitRegister s i = some t) :
    ∃ c, s.workers[i]? = some ⟨.rereg, c⟩ ∧ s.reg.length < s.cap ∧
      t = { s with reg := s.reg ++ [i], workers := s.workers.set i ⟨.idle, c⟩ } := by
  unfold waitRegister at h
  split at h
  · next c hw =>
    split at h
    · next hlt => exact ⟨c, hw, hlt, (Option.some.inj h).symm⟩
    · simp at h
  · simp at h

theorem waitRangeEnds_some {s t : State} {i : Nat} (h : waitRangeEnds s i = some t) :
    s.workers[i]? = some ⟨.idle, true⟩ ∧
      t = { s with workers := s.workers.set i ⟨.exited, true⟩ } := by
  unfold waitRangeEnds at h
  split at h
  · next hw => exact ⟨hw, (Option.some.inj h).symm⟩
  · simp at h

theorem dispatchShutReceive_some {s t : State} (h : dispatchShutReceive s = some t) :
    ∃ i, s.loop = .taking i ∧
      ((i < s.cap ∧ ∃ w rest, s.reg = w :: rest ∧
          t = { s with reg := rest, loop := .closing i w, shut := s.shut ++ [w] })
        ∨ (¬ i < s.cap ∧ t = { s with loop := .finished })) := by
  unfold dispatchShutReceive at h
  split at h
  · next i hl =>
    refine ⟨i, hl, ?_⟩
    split at h
    · next hlt =>
      left
      split at h
      · next w rest hr => exact ⟨hlt, w, rest, hr, (Option.some.inj h).symm⟩
      · simp at h
    · next hge => right; exact ⟨hge, (Option.some.inj h).symm⟩
  · simp at h

theorem dispatchShutClose_some {s t : State} (h : dispatchShutClose s = some t) :
    ∃ i w ph c, s.loop = .closing i w ∧ s.workers[w]? = some ⟨ph, c⟩ ∧
      ((c = true ∧ t = { s with fault := some .closeOfClosedWorker })
        ∨ (c = false ∧
            t = { s with workers := s.workers.set w ⟨ph, true⟩, loop := .taking (i + 1) })) := by
  unfold dispatchShutClose at h
  split at h
  · next i w hl =>
    split at h
    · next ph c hw =>
      refine ⟨i, w, ph, c, hl, hw, ?_⟩
      split at h
      · next hc => left; exact ⟨hc, (Option.some.inj h).symm⟩
      · next hc => right; exact ⟨by simpa using hc, (Option.some.inj h).symm⟩
    · simp at h
  · simp at h

/-! ## The counting invariants are kept by every step -/

theorem set_counts (l : List WorkerSt) (i : Nat) (a b : WorkerSt) (h : l[i]? = some b) :
    (List.countP WorkerSt.away (l.set i a) + (if b.away then 1 else 0)
        = List.countP WorkerSt.away l + (if a.away then 1 else 0))
    ∧ (List.countP WorkerSt.isGot (l.set i a) + (if b.isGot then 1 else 0)
        = List.countP WorkerSt.isGot l + (if a.isGot then 1 else 0))
    ∧ (List.countP WorkerSt.isBusy (l.set i a) + (if b.isBusy then 1 else 0)
        = List.countP WorkerSt.isBusy l + (if a.isBusy then 1 else 0))
    ∧ (List.countP WorkerSt.closed (l.set i a) + (if b.closed then 1 else 0)
        = List.countP WorkerSt.closed l + (if a.closed then 1 else 0)) :=
  ⟨countP_set_add _ l i a b h, countP_set_add _ l i a b h, countP_set_add _ l i a b h,
    countP_set_add _ l i a b h⟩

theorem counts_start (n : Nat) (units : List Work) : Counts (start n units) := by
  constructor <;> simp [start, spawnedOf, shutOf, closingNow]

theorem counts_spawn {s t : State} (hI : Counts s) (h : dispatchSpawn s = some t) : Counts t := by
  obtain ⟨i, hl, ⟨hlt, rfl⟩ | ⟨hge, rfl⟩⟩ := dispatchSpawn_some h
  all_goals
    obtain ⟨a1, a2, a3, a4, a5, a6, a7, a8, a9, a10, a11⟩ := hI
    simp [hl, spawnedOf, shutOf, closingNow] at a1 a4 a6 a10 a11
    constructor <;>
      simp [hl, spawnedOf, shutOf, closingNow, WorkerSt.away, WorkerSt.isGot, WorkerSt.isBusy,
        List.countP_append, List.countP_cons, List.countP_nil] <;>
      first | omega | assumption

theorem counts_announce {s t : State} {i : Nat} (hI : Counts s) (h : workRegister s i = some t) :
    Counts t := by
  obtain ⟨c, hw, hlt, rfl⟩ := workRegister_some h
  obtain ⟨a1, a2, a3, a4, a5, a6, a7, a8, a9, a10, a11⟩ := hI
  obtain ⟨h1, h2, h3, h4⟩ := set_counts s.workers i ⟨.launch, c⟩ _ hw
  simp [WorkerSt.away, WorkerSt.isGot, WorkerSt.isBusy] at h1 h2 h3 h4
  constructor <;> simp <;> first | omega | assumption

theorem counts_launch {s t : State} {i : Nat} (hI : Counts s) (h : workLaunch s i = some t) :
    Counts t := by
  obtain ⟨c, hw, rfl⟩ := workLaunch_some h
  obtain ⟨a1, a2, a3, a4, a5, a6, a7, a8, a9, a10, a11⟩ := hI
  obtain ⟨h1, h2, h3, h4⟩ := set_counts s.workers i ⟨.idle, c⟩ _ hw
  simp [WorkerSt.away, WorkerSt.isGot, WorkerSt.isBusy] at h1 h2 h3 h4
  constructor <;> simp <;> first | omega | assumption

theorem counts_accept {s t : State} {k : Nat} (hI : Counts s) (h : dispatchAccept s k = some t) :
    Counts t := by
  obtain ⟨u, hl, hq, hs, rfl⟩ := dispatchAccept_some h
  obtain ⟨a1, a2, a3, a4, a5, a6, a7, a8, a9, a10, a11⟩ := hI
  have h1 := length_eraseIdx_add _ _ _ hs
  simp [hl, spawnedOf, shutOf, closingNow] at a1 a4 a6 a10 a11
  constructor <;> simp [hl, spawnedOf, shutOf, closingNow] <;> first | omega | assumption

theorem counts_close {s t : State} (hI : Counts s) (h : callerClose s = some t) : Counts t := by
  obtain ⟨hq, ⟨he, rfl⟩ | ⟨he, rfl⟩⟩ := callerClose_some h
  all_goals
    obtain ⟨a1, a2, a3, a4, a5, a6, a7, a8, a9, a10, a11⟩ := hI
    constructor <;> simp <;> first | omega | assumption

theorem counts_observeClosed {s t : State} (hI : Counts s) (h : dispatchRangeEnds s = some t) :
    Counts t := by
  obtain ⟨hl, hq, rfl⟩ := dispatchRangeEnds_some h
  obtain ⟨a1, a2, a3, a4, a5, a6, a7, a8, a9, a10, a11⟩ := hI
  simp [hl, spawnedOf, shutOf, closingNow] at a1 a4 a6 a10 a11
  constructor <;> simp [hl, hq, spawnedOf, shutOf, closingNow] <;> first | omega | assumption

theorem counts_matchTake {s t : State} {k : Nat} (hI : Counts s) (h : matchReceive s k = some t) :
    Counts t := by
  obtain ⟨u, w, rest, hw, hr, rfl⟩ := matchReceive_some h
  obtain ⟨a1, a2, a3, a4, a5, a6, a7, a8, a9, a10, a11⟩ := hI
  have h1 := length_eraseIdx_add _ _ _ hw
  simp [hr] at a3
  constructor <;> simp <;> first | omega | assumption

theorem counts_matchSend {s t : State} {k : Nat} (hI : Counts s) (h : matchDeliver s k = some t) :
    Counts t := by
  obtain ⟨w, u, ph, c, hh, hw, ⟨hc, rfl⟩ | ⟨hc, hp, rfl⟩⟩ := matchDeliver_some h
  · obtain ⟨a1, a2, a3, a4, a5, a6, a7, a8, a9, a10, a11⟩ := hI
    constructor <;> simp <;> first | omega | assumption
  · obtain ⟨a1, a2, a3, a4, a5, a6, a7, a8, a9, a10, a11⟩ := hI
    obtain ⟨h1, h2, h3, h4⟩ := set_counts s.workers w ⟨.got u, c⟩ _ hw
    have h5 := length_eraseIdx_add _ _ _ hh
    subst hp
    simp [WorkerSt.away, WorkerSt.isGot, WorkerSt.isBusy] at h1 h2 h3 h4
    constructor <;> simp <;> first | omega | assumption

theorem counts_check {s t : State} {i : Nat} (hI : Counts s) (h : waitCheck s i = some t) :
    Counts t := by
  obtain ⟨c, ⟨hw, rfl⟩ | ⟨u, hw, rfl⟩⟩ := waitCheck_some h
  · obtain ⟨a1, a2, a3, a4, a5, a6, a7, a8, a9, a10, a11⟩ := hI
    constructor <;> simp <;> first | omega | assumption
  · obtain ⟨a1, a2, a3, a4, a5, a6, a7, a8, a9, a10, a11⟩ := hI
    obtain ⟨h1, h2, h3, h4⟩ := set_counts s.workers i ⟨.busy u, c⟩ _ hw
    simp [WorkerSt.away, WorkerSt.isGot, WorkerSt.isBusy] at h1 h2 h3 h4
    constructor <;> simp <;> first | omega | assumption

theorem counts_finish {s t : State} {i : Nat} (hI : Counts s) (h : waitReturn s i = some t) :
    Counts t := by
  obtain ⟨u, c, hw, rfl⟩ := waitReturn_some h
  obtain ⟨a1, a2, a3, a4, a5, a6, a7, a8, a9, a10, a11⟩ := hI
  obtain ⟨h1, h2, h3, h4⟩ := set_counts s.workers i ⟨.rereg, c⟩ _ hw
  simp [WorkerSt.away, WorkerSt.isGot, WorkerSt.isBusy] at h1 h2 h3 h4
  constructor <;> simp <;> first | omega | assumption

theorem counts_rereg {s t : State} {i : Nat} (hI : Counts s) (h : waitRegister s i = some t) :
    Counts t := by
  obtain ⟨c, hw, hlt, rfl⟩ := waitRegister_some h
  obtain ⟨a1, a2, a3, a4, a5, a6, a7, a8, a9, a10, a11⟩ := hI
  obtain ⟨h1, h2, h3, h4⟩ := set_counts s.workers i ⟨.idle, c⟩ _ hw
  simp [WorkerSt.away, WorkerSt.isGot, WorkerSt.isBusy] at h1 h2 h3 h4
  constructor <;> simp <;> first | omega | assumption

theorem counts_exit {s t : State} {i : Nat} (hI : Counts s) (h : waitRangeEnds s i = some t) :
    Counts t := by
  obtain ⟨hw, rfl⟩ := waitRangeEnds_some h
  obtain ⟨a1, a2, a3, a4, a5, a6, a7, a8, a9, a10, a11⟩ := hI
  obtain ⟨h1, h2, h3, h4⟩ := set_counts s.workers i ⟨.exited, true⟩ _ hw
  simp [WorkerSt.away, WorkerSt.isGot, WorkerSt.isBusy] at h1 h2 h3 h4
  constructor <;> simp <;> first | omega | assumption

theorem counts_shutTake {s t : State} (hI : Counts s) (h : dispatchShutReceive s = some t) :
    Counts t := by
  obtain ⟨i, hl, ⟨hlt, w, rest, hr, rfl⟩ | ⟨hge, rfl⟩⟩ := dispatchShutReceive_some h
  all_goals
    obtain ⟨a1, a2, a3, a4, a5, a6, a7, a8, a9, a10, a11⟩ := hI
    simp [hl, spawnedOf, shutOf, closingNow] at a1 a3 a4 a6 a10 a11
    constructor <;> simp [hl, spawnedOf, shutOf, closingNow] <;>
      first | omega | assumption | (simp_all; done) | (simp_all; omega)

theorem counts_shutClose {s t : State} (hI : Counts s) (h : dispatchShutClose s = some t) :
    Counts t := by
  obtain ⟨i, w, ph, c, hl, hw, ⟨hc, rfl⟩ | ⟨hc, rfl⟩⟩ := dispatchShutClose_some h
  · obtain ⟨a1, a2, a3, a4, a5, a6, a7, a8, a9, a10, a11⟩ := hI
    constructor <;> simp <;> first | omega | assumption
  · obtain ⟨a1, a2, a3, a4, a5, a6, a7, a8, a9, a10, a11⟩ := hI
    obtain ⟨h1, h2, h3, h4⟩ := set_counts s.workers w ⟨ph, true⟩ _ hw
    subst hc
    simp [hl, spawnedOf, shutOf, closingNow] at a1 a3 a4 a6 a10 a11
    simp [WorkerSt.away, WorkerSt.isGot, WorkerSt.isBusy] at h1 h2 h3 h4
    constructor <;> simp [hl, spawnedOf, shutOf, closingNow] <;>
      first | omega | assumption

theorem counts_step {s t : State} {a : Action} (hI : Counts s) (h : step s a = some t) :
    Counts t := by
  unfold step at h
  split at h
  · simp at h
  · cases a with
    | spawn => exact counts_spawn hI h
    | announce i => exact counts_announce hI h
    | launch i => exact counts_launch hI h
    | accept k => exact counts_accept hI h
    | close => exact counts_close hI h
    | observeClosed => exact counts_observeClosed hI h
    | matchTake k => exact counts_matchTake hI h
    | matchSend k => exact counts_matchSend hI h
    | check i => exact counts_check hI h
    | finish i => exact counts_finish hI h
    | rereg i => exact counts_rereg hI h
    | exit i => exact counts_exit hI h
    | shutTake => exact counts_shutTake hI h
    | shutClose => exact counts_shutClose hI h

/-! ## The invariants on places are kept by every step -/

theorem count_map_eraseIdx_add {α β : Type} [BEq β] [LawfulBEq β] (f : α → β) (l : List α)
    (k : Nat) (b : α) (a : β) (h : l[k]? = some b) :
    List.count a ((l.eraseIdx k).map f) + (if f b == a then 1 else 0) = List.count a (l.map f) := by
  have := ((perm_eraseIdx l k b h).map f).countP_eq (fun x => x == a)
  simp only [List.count]
  rw [this, List.map_cons, List.countP_cons]

theorem lt_of_getElem? {α : Type} {l : List α} {i : Nat} {b : α} (h : l[i]? = some b) :
    i < l.length := by
  rcases Nat.lt_or_ge i l.length with h1 | h1
  · exact h1
  · simp [List.getElem?_eq_none h1] at h

theorem awayAt_eq {l : List WorkerSt} {i : Nat} {b : WorkerSt} (h : l[i]? = some b) :
    awayAt l i = if b.away then 1 else 0 := by
  simp [awayAt, h]

theorem awayAt_set_self {l : List WorkerSt} {i : Nat} {b : WorkerSt} (a : WorkerSt)
    (h : l[i]? = some b) : awayAt (l.set i a) i = if a.away then 1 else 0 := by
  simp [awayAt, List.getElem?_set, lt_of_getElem? h]

theorem awayAt_set_ne {l : List WorkerSt} {i j : Nat} (a : WorkerSt) (h : j ≠ i) :
    awayAt (l.set i a) j = awayAt l j := by
  simp [awayAt, List.getElem?_set, Ne.symm h]

theorem created_set (l : List WorkerSt) (i j : Nat) (a : WorkerSt) :
    created (l.set i a) j = created l j := by
  simp [created]

theorem getElem?_set_cases {α : Type} {l : List α} {i j : Nat} {a ws : α}
    (h : (l.set i a)[j]? = some ws) : (j = i ∧ ws = a) ∨ (j ≠ i ∧ l[j]? = some ws) := by
  rw [List.getElem?_set] at h
  split at h
  · next hij =>
    left
    split at h
    · exact ⟨hij.symm, (Option.some.inj h).symm⟩
    · simp at h
  · next hij => right; exact ⟨fun e => hij e.symm, h⟩

theorem getElem?_snoc_cases {α : Type} {l : List α} {j : Nat} {a ws : α}
    (h : (l ++ [a])[j]? = some ws) : l[j]? = some ws ∨ (j = l.length ∧ ws = a) := by
  rcases Nat.lt_or_ge j l.length with h1 | h1
  · left; rwa [List.getElem?_append_left h1] at h
  · right
    rw [List.getElem?_append_right h1] at h
    have h2 : j - l.length = 0 := by
      rcases Nat.eq_zero_or_pos (j - l.length) with h3 | h3
      · exact h3
      · have : ([a] : List α)[j - l.length]? = none := by
          apply List.getElem?_eq_none; simp; omega
        rw [this] at h; simp at h
    rw [h2] at h
    simp at h
    exact ⟨by omega, h.symm⟩

theorem awayAt_snoc (l : List WorkerSt) (a : WorkerSt) (j : Nat) :
    awayAt (l ++ [a]) j = awayAt l j + (if j = l.length then (if a.away then 1 else 0) else 0) := by
  rcases Nat.lt_trichotomy j l.length with h1 | h1 | h1
  · have : j ≠ l.length := by omega
    simp [awayAt, List.getElem?_append_left h1, this]
  · subst h1
    simp [awayAt]
  · have : j ≠ l.length := by omega
    have h2 : (l ++ [a])[j]? = none := by apply List.getElem?_eq_none; simp; omega
    have h3 : l[j]? = none := by apply List.getElem?_eq_none; omega
    simp [awayAt, h2, h3, this]

theorem created_snoc (l : List WorkerSt) (a : WorkerSt) (j : Nat) :
    created (l ++ [a]) j = created l j + (if j = l.length then 1 else 0) := by
  simp only [created, List.length_append, List.length_singleton]
  split <;> split <;> split <;> omega

theorem places_start (n : Nat) (units : List Work) : Places units (start n units) := by
  constructor <;> simp [start, awayAt, created, startedOf]
  intro u; cases u <;> simp

theorem places_spawn {units : List Work} {s t : State} (hI : Places units s)
    (h : dispatchSpawn s = some t) : Places units t := by
  obtain ⟨i, hl, ⟨hlt, rfl⟩ | ⟨hge, rfl⟩⟩ := dispatchSpawn_some h
  · obtain ⟨b1, b2, b3, b4, b5, b6, b7⟩ := hI
    refine ⟨?_, ?_, ?_, ?_, ?_, ?_, b7⟩
    · intro j
      have hj := b1 j
      simp only [awayAt_snoc, created_snoc]
      simp [WorkerSt.away]
      omega
    · intro j ws hw hc
      rcases getElem?_snoc_cases hw with h1 | ⟨_, h1⟩
      · exact ⟨(b2 j ws h1 hc).1, by simp⟩
      · subst h1; simp at hc
    · simp
    · intro j ws hw hp
      rcases getElem?_snoc_cases hw with h1 | ⟨_, h1⟩
      · exact b4 j ws h1 hp
      · subst h1; simp at hp
    · intro u
      have := b5 u
      simp [List.countP_append, gotIs]
      omega
    · intro k
      have := b6 k
      simp [List.countP_append, busyIs]
      omega
  · obtain ⟨b1, b2, b3, b4, b5, b6, b7⟩ := hI
    refine ⟨b1, ?_, ?_, b4, b5, b6, b7⟩
    · intro j ws hw hc
      exact ⟨(b2 j ws hw hc).1, by simp⟩
    · simp

theorem places_announce {units : List Work} {s t : State} {i : Nat} (hI : Places units s)
    (h : workRegister s i = some t) : Places units t := by
  obtain ⟨c, hw, hlt, rfl⟩ := workRegister_some h
  obtain ⟨b1, b2, b3, b4, b5, b6, b7⟩ := hI
  refine ⟨?_, ?_, b3, ?_, ?_, ?_, b7⟩
  · intro j
    have hj := b1 j
    by_cases hji : j = i
    · subst hji
      simp [awayAt_set_self _ hw, awayAt_eq hw, created_set, WorkerSt.away, List.count_append] at hj ⊢
      omega
    · simp [awayAt_set_ne _ hji, created_set, List.count_append, hji] at hj ⊢
      omega
  · intro j ws hj hc
    rcases getElem?_set_cases hj with ⟨h1, h2⟩ | ⟨h1, h2⟩
    · subst h1 h2
      have := b2 j _ hw hc
      exact ⟨by simp [this.1], this.2⟩
    · have := b2 j _ h2 hc
      exact ⟨by simp [this.1], this.2⟩
  · intro j ws hj hp
    rcases getElem?_set_cases hj with ⟨h1, h2⟩ | ⟨h1, h2⟩
    · subst h2; simp at hp
    · exact b4 j _ h2 hp
  · intro u
    have := b5 u
    have h1 := countP_set_add (gotIs u) s.workers i ⟨.launch, c⟩ _ hw
    simp [gotIs] at h1 ⊢
    omega
  · intro k
    have := b6 k
    have h1 := countP_set_add (busyIs k) s.workers i ⟨.launch, c⟩ _ hw
    simp [busyIs] at h1 ⊢
    omega

theorem places_launch {units : List Work} {s t : State} {i : Nat} (hI : Places units s)
    (h : workLaunch s i = some t) : Places units t := by
  obtain ⟨c, hw, rfl⟩ := workLaunch_some h
  obtain ⟨b1, b2, b3, b4, b5, b6, b7⟩ := hI
  refine ⟨?_, ?_, b3, ?_, ?_, ?_, b7⟩
  · intro j
    have hj := b1 j
    by_cases hji : j = i
    · subst hji
      simp [awayAt_set_self _ hw, awayAt_eq hw, created_set, WorkerSt.away] at hj ⊢
      omega
    · simp [awayAt_set_ne _ hji, created_set, hji] at hj ⊢
      omega
  · intro j ws hj hc
    rcases getElem?_set_cases hj with ⟨h1, h2⟩ | ⟨h1, h2⟩
    · subst h1 h2
      exact b2 j _ hw hc
    · exact b2 j _ h2 hc
  · intro j ws hj hp
    rcases getElem?_set_cases hj with ⟨h1, h2⟩ | ⟨h1, h2⟩
    · subst h2; simp at hp
    · exact b4 j _ h2 hp
  · intro u
    have := b5 u
    have h1 := countP_set_add (gotIs u) s.workers i ⟨.idle, c⟩ _ hw
    simp [gotIs] at h1 ⊢
    omega
  · intro k
    have := b6 k
    have h1 := countP_set_add (busyIs k) s.workers i ⟨.idle, c⟩ _ hw
    simp [busyIs] at h1 ⊢
    omega

theorem places_accept {units : List Work} {s t : State} {k : Nat} (hI : Places units s)
    (h : dispatchAccept s k = some t) : Places units t := by
  obtain ⟨u, hl, hq, hs, rfl⟩ := dispatchAccept_some h
  obtain ⟨b1, b2, b3, b4, b5, b6, b7⟩ := hI
  refine ⟨b1, b2, b3, b4, ?_, b6, ?_⟩
  · intro v
    have := b5 v
    have h1 := count_eraseIdx_add s.senders k u v hs
    simp [List.count_append, List.count_cons] at this h1 ⊢
    omega
  · intro v
    have := b7 v
    have h1 := count_eraseIdx_add s.senders k u v hs
    simp [List.count_append, List.count_cons] at this h1 ⊢
    omega

theorem places_close {units : List Work} {s t : State} (hI : Places units s)
    (h : callerClose s = some t) : Places units t := by
  obtain ⟨hq, ⟨he, rfl⟩ | ⟨he, rfl⟩⟩ := callerClose_some h
  all_goals
    obtain ⟨b1, b2, b3, b4, b5, b6, b7⟩ := hI
    exact ⟨b1, b2, b3, b4, b5, b6, b7⟩

theorem places_observeClosed {units : List Work} {s t : State} (hI : Places units s)
    (h : dispatchRangeEnds s = some t) : Places units t := by
  obtain ⟨hl, hq, rfl⟩ := dispatchRangeEnds_some h
  obtain ⟨b1, b2, b3, b4, b5, b6, b7⟩ := hI
  refine ⟨b1, ?_, ?_, b4, b5, b6, b7⟩
  · intro j ws hw hc
    exact ⟨(b2 j ws hw hc).1, by simp⟩
  · simp

theorem places_matchTake {units : List Work} {s t : State} {k : Nat} (hI : Places units s)
    (h : matchReceive s k = some t) : Places units t := by
  obtain ⟨u, w, rest, hw, hr, rfl⟩ := matchReceive_some h
  obtain ⟨b1, b2, b3, b4, b5, b6, b7⟩ := hI
  refine ⟨?_, b2, b3, b4, ?_, b6, b7⟩
  · intro j
    have hj := b1 j
    simp [hr, List.count_cons, List.count_append] at hj ⊢
    omega
  · intro v
    have := b5 v
    have h1 := count_eraseIdx_add s.waiting k u v hw
    simp [List.count_append, List.count_cons] at this h1 ⊢
    omega

theorem places_matchSend {units : List Work} {s t : State} {k : Nat} (hI : Places units s)
    (h : matchDeliver s k = some t) : Places units t := by
  obtain ⟨w, u, ph, c, hh, hw, ⟨hc, rfl⟩ | ⟨hc, hp, rfl⟩⟩ := matchDeliver_some h
  · obtain ⟨b1, b2, b3, b4, b5, b6, b7⟩ := hI
    exact ⟨b1, b2, b3, b4, b5, b6, b7⟩
  · obtain ⟨b1, b2, b3, b4, b5, b6, b7⟩ := hI
    subst hp hc
    refine ⟨?_, ?_, b3, ?_, ?_, ?_, b7⟩
    · intro j
      have hj := b1 j
      have h1 := count_map_eraseIdx_add Prod.fst s.holding k (w, u) j hh
      by_cases hji : j = w
      · subst hji
        simp [awayAt_set_self _ hw, awayAt_eq hw, created_set, WorkerSt.away] at hj h1 ⊢
        omega
      · have hji2 : ¬ w = j := fun e => hji e.symm
        simp [awayAt_set_ne _ hji, created_set, hji, hji2] at hj h1 ⊢
        omega
    · intro j ws hj hc
      rcases getElem?_set_cases hj with ⟨h1, h2⟩ | ⟨h1, h2⟩
      · subst h2; simp at hc
      · exact b2 j _ h2 hc
    · intro j ws hj hp
      rcases getElem?_set_cases hj with ⟨h1, h2⟩ | ⟨h1, h2⟩
      · subst h2; simp at hp
      · exact b4 j _ h2 hp
    · intro v
      have := b5 v
      have h1 := countP_set_add (gotIs v) s.workers w ⟨.got u, false⟩ _ hw
      have h2 := count_map_eraseIdx_add Prod.snd s.holding k (w, u) v hh
      simp [gotIs] at h1 h2 ⊢
      omega
    · intro j
      have := b6 j
      have h1 := countP_set_add (busyIs j) s.workers w ⟨.got u, false⟩ _ hw
      simp [busyIs] at h1 ⊢
      omega

theorem places_check {units : List Work} {s t : State} {i : Nat} (hI : Places units s)
    (h : waitCheck s i = some t) : Places units t := by
  obtain ⟨c, ⟨hw, rfl⟩ | ⟨u, hw, rfl⟩⟩ := waitCheck_some h
  · obtain ⟨b1, b2, b3, b4, b5, b6, b7⟩ := hI
    exact ⟨b1, b2, b3, b4, b5, b6, b7⟩
  · obtain ⟨b1, b2, b3, b4, b5, b6, b7⟩ := hI
    refine ⟨?_, ?_, b3, ?_, ?_, ?_, b7⟩
    · intro j
      have hj := b1 j
      by_cases hji : j = i
      · subst hji
        simp [awayAt_set_self _ hw, awayAt_eq hw, created_set, WorkerSt.away] at hj ⊢
        omega
      · simp [awayAt_set_ne _ hji, created_set, hji] at hj ⊢
        omega
    · intro j ws hj hc
      rcases getElem?_set_cases hj with ⟨h1, h2⟩ | ⟨h1, h2⟩
      · subst h1 h2
        exact b2 j _ hw hc
      · exact b2 j _ h2 hc
    · intro j ws hj hp
      rcases getElem?_set_cases hj with ⟨h1, h2⟩ | ⟨h1, h2⟩
      · subst h2; simp at hp
      · exact b4 j _ h2 hp
    · intro v
      have := b5 v
      have h1 := countP_set_add (gotIs v) s.workers i ⟨.busy u, c⟩ _ hw
      cases v with
      | none =>
        simp [gotIs, startedOf] at h1 this ⊢
        omega
      | some x =>
        simp [gotIs, startedOf, List.count_append, List.count_cons] at h1 this ⊢
        omega
    · intro j
      have := b6 j
      have h1 := countP_set_add (busyIs j) s.workers i ⟨.busy u, c⟩ _ hw
      simp [busyIs, List.count_append, List.count_cons] at h1 ⊢
      omega

theorem places_finish {units : List Work} {s t : State} {i : Nat} (hI : Places units s)
    (h : waitReturn s i = some t) : Places units t := by
  obtain ⟨u, c, hw, rfl⟩ := waitReturn_some h
  obtain ⟨b1, b2, b3, b4, b5, b6, b7⟩ := hI
  refine ⟨?_, ?_, b3, ?_, ?_, ?_, b7⟩
  · intro j
    have hj := b1 j
    by_cases hji : j = i
    · subst hji
      simp [awayAt_set_self _ hw, awayAt_eq hw, created_set, WorkerSt.away] at hj ⊢
      omega
    · simp [awayAt_set_ne _ hji, created_set, hji] at hj ⊢
      omega
  · intro j ws hj hc
    rcases getElem?_set_cases hj with ⟨h1, h2⟩ | ⟨h1, h2⟩
    · subst h1 h2
      exact b2 j _ hw hc
    · exact b2 j _ h2 hc
  · intro j ws hj hp
    rcases getElem?_set_cases hj with ⟨h1, h2⟩ | ⟨h1, h2⟩
    · subst h2; simp at hp
    · exact b4 j _ h2 hp
  · intro v
    have := b5 v
    have h1 := countP_set_add (gotIs v) s.workers i ⟨.rereg, c⟩ _ hw
    simp [gotIs] at h1 ⊢
    omega
  · intro j
    have := b6 j
    have h1 := countP_set_add (busyIs j) s.workers i ⟨.rereg, c⟩ _ hw
    simp [busyIs, List.count_append, List.count_cons] at h1 ⊢
    omega

theorem places_rereg {units : List Work} {s t : State} {i : Nat} (hI : Places units s)
    (h : waitRegister s i = some t) : Places units t := by
  obtain ⟨c, hw, hlt, rfl⟩ := waitRegister_some h
  obtain ⟨b1, b2, b3, b4, b5, b6, b7⟩ := hI
  refine ⟨?_, ?_, b3, ?_, ?_, ?_, b7⟩
  · intro j
    have hj := b1 j
    by_cases hji : j = i
    · subst hji
      simp [awayAt_set_self _ hw, awayAt_eq hw, created_set, WorkerSt.away, List.count_append] at hj ⊢
      omega
    · simp [awayAt_set_ne _ hji, created_set, List.count_append, hji] at hj ⊢
      omega
  · intro j ws hj hc
    rcases getElem?_set_cases hj with ⟨h1, h2⟩ | ⟨h1, h2⟩
    · subst h1 h2
      exact b2 j _ hw hc
    · exact b2 j _ h2 hc
  · intro j ws hj hp
    rcases getElem?_set_cases hj with ⟨h1, h2⟩ | ⟨h1, h2⟩
    · subst h2; simp at hp
    · exact b4 j _ h2 hp
  · intro u
    have := b5 u
    have h1 := countP_set_add (gotIs u) s.workers i ⟨.idle, c⟩ _ hw
    simp [gotIs] at h1 ⊢
    omega
  · intro k
    have := b6 k
    have h1 := countP_set_add (busyIs k) s.workers i ⟨.idle, c⟩ _ hw
    simp [busyIs] at h1 ⊢
    omega

theorem places_exit {units : List Work} {s t : State} {i : Nat} (hI : Places units s)
    (h : waitRangeEnds s i = some t) : Places units t := by
  obtain ⟨hw, rfl⟩ := waitRangeEnds_some h
  obtain ⟨b1, b2, b3, b4, b5, b6, b7⟩ := hI
  refine ⟨?_, ?_, b3, ?_, ?_, ?_, b7⟩
  · intro j
    have hj := b1 j
    by_cases hji : j = i
    · subst hji
      simp [awayAt_set_self _ hw, awayAt_eq hw, created_set, WorkerSt.away] at hj ⊢
      omega
    · simp [awayAt_set_ne _ hji, created_set, hji] at hj ⊢
      omega
  · intro j ws hj hc
    rcases getElem?_set_cases hj with ⟨h1, h2⟩ | ⟨h1, h2⟩
    · subst h1 h2
      exact b2 j _ hw rfl
    · exact b2 j _ h2 hc
  · intro j ws hj hp
    rcases getElem?_set_cases hj with ⟨h1, h2⟩ | ⟨h1, h2⟩
    · subst h2; rfl
    · exact b4 j _ h2 hp
  · intro u
    have := b5 u
    have h1 := countP_set_add (gotIs u) s.workers i ⟨.exited, true⟩ _ hw
    simp [gotIs] at h1 ⊢
    omega
  · intro k
    have := b6 k
    have h1 := countP_set_add (busyIs k) s.workers i ⟨.exited, true⟩ _ hw
    simp [busyIs] at h1 ⊢
    omega

theorem places_shutTake {units : List Work} {s t : State} (hI : Places units s)
    (h : dispatchShutReceive s = some t) : Places units t := by
  obtain ⟨i, hl, ⟨hlt, w, rest, hr, rfl⟩ | ⟨hge, rfl⟩⟩ := dispatchShutReceive_some h
  · obtain ⟨b1, b2, b3, b4, b5, b6, b7⟩ := hI
    refine ⟨?_, ?_, ?_, b4, b5, b6, b7⟩
    · intro j
      have hj := b1 j
      simp [hr, List.count_cons, List.count_append] at hj ⊢
      omega
    · intro j ws hj hc
      have h1 := (b2 j ws hj hc).1
      refine ⟨by simp [h1], ?_⟩
      intro j2 he
      simp at he
      have h2 := b1 w
      have h3 : 0 < List.count w s.shut := by
        rw [he.2]; exact List.count_pos_iff.mpr h1
      have h4 : created s.workers w ≤ 1 := by
        unfold created; split <;> omega
      simp [hr] at h2
      omega
    · intro j w2 he
      simp at he
      simp [he.2]
  · obtain ⟨b1, b2, b3, b4, b5, b6, b7⟩ := hI
    refine ⟨b1, ?_, ?_, b4, b5, b6, b7⟩
    · intro j ws hw hc
      exact ⟨(b2 j ws hw hc).1, by simp⟩
    · simp

theorem places_shutClose {units : List Work} {s t : State} (hI : Places units s)
    (h : dispatchShutClose s = some t) : Places units t := by
  obtain ⟨i, w, ph, c, hl, hw, ⟨hc, rfl⟩ | ⟨hc, rfl⟩⟩ := dispatchShutClose_some h
  · obtain ⟨b1, b2, b3, b4, b5, b6, b7⟩ := hI
    exact ⟨b1, b2, b3, b4, b5, b6, b7⟩
  · obtain ⟨b1, b2, b3, b4, b5, b6, b7⟩ := hI
    subst hc
    refine ⟨?_, ?_, ?_, ?_, ?_, ?_, b7⟩
    · intro j
      have hj := b1 j
      by_cases hji : j = w
      · subst hji
        simp [awayAt_set_self _ hw, awayAt_eq hw, created_set, WorkerSt.away] at hj ⊢
        omega
      · simp [awayAt_set_ne _ hji, created_set, hji] at hj ⊢
        omega
    · intro j ws hj hc
      rcases getElem?_set_cases hj with ⟨h1, h2⟩ | ⟨h1, h2⟩
      · subst h1
        exact ⟨b3 i j hl, by simp⟩
      · exact ⟨(b2 j _ h2 hc).1, by simp⟩
    · simp
    · intro j ws hj hp
      rcases getElem?_set_cases hj with ⟨h1, h2⟩ | ⟨h1, h2⟩
      · subst h2; rfl
      · exact b4 j _ h2 hp
    · intro u
      have := b5 u
      have h1 := countP_set_add (gotIs u) s.workers w ⟨ph, true⟩ _ hw
      simp [gotIs] at h1 ⊢
      omega
    · intro k
      have := b6 k
      have h1 := countP_set_add (busyIs k) s.workers w ⟨ph, true⟩ _ hw
      simp [busyIs] at h1 ⊢
      omega

theorem places_step {units : List Work} {s t : State} {a : Action} (hI : Places units s)
    (h : step s a = some t) : Places units t := by
  unfold step at h
  split at h
  · simp at h
  · cases a with
    | spawn => exact places_spawn hI h
    | announce i => exact places_announce hI h
    | launch i => exact places_launch hI h
    | accept k => exact places_accept hI h
    | close => exact places_close hI h
    | observeClosed => exact places_observeClosed hI h
    | matchTake k => exact places_matchTake hI h
    | matchSend k => exact places_matchSend hI h
    | check i => exact places_check hI h
    | finish i => exact places_finish hI h
    | rereg i => exact places_rereg hI h
    | exit i => exact places_exit hI h
    | shutTake => exact places_shutTake hI h
    | shutClose => exact places_shutClose hI h

/-! ## Reachable states -/

theorem count_map_pos_of_getElem? {α β : Type} [BEq β] [LawfulBEq β] (f : α → β) (l : List α)
    (k : Nat) (b : α) (h : l[k]? = some b) : 0 < List.count (f b) (l.map f) := by
  have := count_map_eraseIdx_add f l k b (f b) h
  simp at this
  omega

theorem created_le_one (l : List WorkerSt) (i : Nat) : created l i ≤ 1 := by
  unfold created; split <;> omega

theorem created_pos (l : List WorkerSt) (i : Nat) (h : 0 < created l i) :
    ∃ ws, l[i]? = some ws := by
  unfold created at h
  split at h
  · next hlt => exact ⟨l[i], List.getElem?_eq_getElem hlt⟩
  · omega

/-- A handle held by a match goroutine belongs to a created worker that is not
away and whose channel is open. -/
theorem holding_open {units : List Work} {s : State} (hP : Places units s) {k w : Nat} {u : Work}
    (hh : s.holding[k]? = some (w, u)) :
    ∃ ws, s.workers[w]? = some ws ∧ ws.closed = false ∧ ws.away = false := by
  have h1 := count_map_pos_of_getElem? Prod.fst s.holding k (w, u) hh
  have h2 := hP.once w
  have h3 := created_le_one s.workers w
  simp only at h1
  obtain ⟨ws, hws⟩ := created_pos s.workers w (by omega)
  refine ⟨ws, hws, ?_, ?_⟩
  · cases hc : ws.closed with
    | false => rfl
    | true =>
      have h4 := (hP.closedShut w ws hws hc).1
      have h5 : 0 < List.count w s.shut := List.count_pos_iff.mpr h4
      omega
  · have h6 := awayAt_eq hws
    cases ha : ws.away with
    | false => rfl
    | true => simp [ha] at h6; omega

/-- The handle the shutdown loop is about to close belongs to a created worker
that is not away and whose channel is open. -/
theorem closing_open {units : List Work} {s : State} (hP : Places units s) {j w : Nat}
    (hl : s.loop = .closing j w) :
    ∃ ws, s.workers[w]? = some ws ∧ ws.closed = false ∧ ws.away = false := by
  have h1 : 0 < List.count w s.shut := List.count_pos_iff.mpr (hP.closingShut j w hl)
  have h2 := hP.once w
  have h3 := created_le_one s.workers w
  obtain ⟨ws, hws⟩ := created_pos s.workers w (by omega)
  refine ⟨ws, hws, ?_, ?_⟩
  · cases hc : ws.closed with
    | false => rfl
    | true => exact absurd hl ((hP.closedShut w ws hws hc).2 j)
  · have h6 := awayAt_eq hws
    cases ha : ws.away with
    | false => rfl
    | true => simp [ha] at h6; omega

theorem safeFault_step {units : List Work} {s t : State} {a : Action} (hP : Places units s)
    (hS : SafeFault s) (h : step s a = some t) : SafeFault t := by
  unfold step at h
  split at h
  · simp at h
  · cases a with
    | spawn =>
      obtain ⟨i, hl, ⟨hlt, rfl⟩ | ⟨hge, rfl⟩⟩ := dispatchSpawn_some h <;> exact hS
    | announce i => obtain ⟨c, hw, hlt, rfl⟩ := workRegister_some h; exact hS
    | launch i => obtain ⟨c, hw, rfl⟩ := workLaunch_some h; exact hS
    | accept k => obtain ⟨u, hl, hq, hs, rfl⟩ := dispatchAccept_some h; exact hS
    | close =>
      obtain ⟨hq, ⟨he, rfl⟩ | ⟨he, rfl⟩⟩ := callerClose_some h
      · exact hS
      · constructor <;> simp
    | observeClosed => obtain ⟨hl, hq, rfl⟩ := dispatchRangeEnds_some h; exact hS
    | matchTake k => obtain ⟨u, w, rest, hw, hr, rfl⟩ := matchReceive_some h; exact hS
    | matchSend k =>
      obtain ⟨w, u, ph, c, hh, hw, ⟨hc, rfl⟩ | ⟨hc, hp, rfl⟩⟩ := matchDeliver_some h
      · obtain ⟨ws, hws, hcl, _⟩ := holding_open hP hh
        rw [hw] at hws
        cases hws
        simp [hc] at hcl
      · exact hS
    | check i =>
      obtain ⟨c, ⟨hw, rfl⟩ | ⟨u, hw, rfl⟩⟩ := waitCheck_some h
      · constructor <;> simp
      · exact hS
    | finish i => obtain ⟨u, c, hw, rfl⟩ := waitReturn_some h; exact hS
    | rereg i => obtain ⟨c, hw, hlt, rfl⟩ := waitRegister_some h; exact hS
    | exit i => obtain ⟨hw, rfl⟩ := waitRangeEnds_some h; exact hS
    | shutTake =>
      obtain ⟨i, hl, ⟨hlt, w, rest, hr, rfl⟩ | ⟨hge, rfl⟩⟩ := dispatchShutReceive_some h <;> exact hS
    | shutClose =>
      obtain ⟨i, w, ph, c, hl, hw, ⟨hc, rfl⟩ | ⟨hc, rfl⟩⟩ := dispatchShutClose_some h
      · obtain ⟨ws, hws, hcl, _⟩ := closing_open hP hl
        rw [hw] at hws
        cases hws
        simp [hc] at hcl
      · exact hS

theorem stepW_step {s t : State} {a : Action} (h : stepW s a = some t) : step s a = some t := by
  unfold stepW at h
  cases a <;> simp only at h <;> try exact h
  split at h
  · exact h
  · simp at h

theorem runW_run {as : List Action} : ∀ {s t : State}, runW s as = some t → run s as = some t := by
  induction as with
  | nil => intro s t h; exact h
  | cons a as ih =>
    intro s t h
    simp only [runW] at h
    simp only [run]
    cases hs : stepW s a with
    | none => simp [hs] at h
    | some m =>
      rw [hs] at h
      rw [stepW_step hs]
      exact ih h

theorem reachableW_reachable {s0 s : State} (h : ReachableW s0 s) : Reachable s0 s := by
  obtain ⟨as, h⟩ := h
  exact ⟨as, runW_run h⟩

/-- Induction over schedules: a property of the start state kept by every step
holds in every reachable state. -/
theorem run_induction (P : State → Prop) (hstep : ∀ s t a, P s → step s a = some t → P t)
    (as : List Action) : ∀ (s t : State), P s → run s as = some t → P t := by
  induction as with
  | nil => intro s t hs h; simp [run] at h; exact h ▸ hs
  | cons a as ih =>
    intro s t hs h
    simp only [run] at h
    cases hm : step s a with
    | none => simp [hm] at h
    | some m =>
      rw [hm] at h
      exact ih m t (hstep s m a hs hm) h

theorem runW_induction (P : State → Prop) (hstep : ∀ s t a, P s → stepW s a = some t → P t)
    (as : List Action) : ∀ (s t : State), P s → runW s as = some t → P t := by
  induction as with
  | nil => intro s t hs h; simp [runW] at h; exact h ▸ hs
  | cons a as ih =>
    intro s t hs h
    simp only [runW] at h
    cases hm : stepW s a with
    | none => simp [hm] at h
    | some m =>
      rw [hm] at h
      exact ih m t (hstep s m a hs hm) h

theorem inv_reachable {n : Nat} {units : List Work} {s : State}
    (h : Reachable (start n units) s) : Counts s ∧ Places units s ∧ SafeFault s := by
  obtain ⟨as, h⟩ := h
  refine run_induction (fun s => Counts s ∧ Places units s ∧ SafeFault s) ?_ as _ s ?_ h
  · intro s t a ⟨hC, hP, hS⟩ hst
    exact ⟨counts_step hC hst, places_step hP hst, safeFault_step hP hS hst⟩
  · exact ⟨counts_start n units, places_start n units, by constructor <;> simp [start]⟩

theorem cap_reachable {n : Nat} {units : List Work} {s : State}
    (h : Reachable (start n units) s) : s.cap = n := by
  obtain ⟨as, h⟩ := h
  refine run_induction (fun s => s.cap = n) ?_ as _ s rfl h
  intro s t a hs hst
  unfold step at hst
  split at hst
  · simp at hst
  · cases a with
    | spawn =>
      obtain ⟨i, hl, ⟨hlt, rfl⟩ | ⟨hge, rfl⟩⟩ := dispatchSpawn_some hst <;> exact hs
    | announce i => obtain ⟨c, hw, hlt, rfl⟩ := workRegister_some hst; exact hs
    | launch i => obtain ⟨c, hw, rfl⟩ := workLaunch_some hst; exact hs
    | accept k => obtain ⟨u, hl, hq, hs2, rfl⟩ := dispatchAccept_some hst; exact hs
    | close =>
      obtain ⟨hq, ⟨he, rfl⟩ | ⟨he, rfl⟩⟩ := callerClose_some hst <;> exact hs
    | observeClosed => obtain ⟨hl, hq, rfl⟩ := dispatchRangeEnds_some hst; exact hs
    | matchTake k => obtain ⟨u, w, rest, hw, hr, rfl⟩ := matchReceive_some hst; exact hs
    | matchSend k =>
      obtain ⟨w, u, ph, c, hh, hw, ⟨hc, rfl⟩ | ⟨hc, hp, rfl⟩⟩ := matchDeliver_some hst <;>
        exact hs
    | check i =>
      obtain ⟨c, ⟨hw, rfl⟩ | ⟨u, hw, rfl⟩⟩ := waitCheck_some hst <;> exact hs
    | finish i => obtain ⟨u, c, hw, rfl⟩ := waitReturn_some hst; exact hs
    | rereg i => obtain ⟨c, hw, hlt, rfl⟩ := waitRegister_some hst; exact hs
    | exit i => obtain ⟨hw, rfl⟩ := waitRangeEnds_some hst; exact hs
    | shutTake =>
      obtain ⟨i, hl, ⟨hlt, w, rest, hr, rfl⟩ | ⟨hge, rfl⟩⟩ := dispatchShutReceive_some hst <;> exact hs
    | shutClose =>
      obtain ⟨i, w, ph, c, hl, hw, ⟨hc, rfl⟩ | ⟨hc, rfl⟩⟩ := dispatchShutClose_some hst <;> exact hs

/-! ## Runs of a caller that waits before closing -/

theorem waited_stepW {s t : State} {a : Action} (hW : Waited s) (h : stepW s a = some t) :
    Waited t := by
  cases a with
  | close =>
    unfold stepW at h
    simp only at h
    split at h
    · next hwg =>
      unfold step at h
      split at h
      · simp at h
      · obtain ⟨hq, ⟨he, rfl⟩ | ⟨he, rfl⟩⟩ := callerClose_some h <;> exact fun _ => hwg
    · simp at h
  | check i =>
    have h := stepW_step h
    unfold step at h
    split at h
    · simp at h
    · obtain ⟨c, ⟨hw, rfl⟩ | ⟨u, hw, rfl⟩⟩ := waitCheck_some h
      · exact hW
      · intro hq
        have := hW hq
        show s.wg - 1 = 0
        omega
  | spawn =>
    have h := stepW_step h
    unfold step at h
    split at h
    · simp at h
    · obtain ⟨i, hl, ⟨hlt, rfl⟩ | ⟨hge, rfl⟩⟩ := dispatchSpawn_some h <;> exact hW
  | announce i =>
    have h := stepW_step h
    unfold step at h
    split at h
    · simp at h
    · obtain ⟨c, hw, hlt, rfl⟩ := workRegister_some h; exact hW
  | launch i =>
    have h := stepW_step h
    unfold step at h
    split at h
    · simp at h
    · obtain ⟨c, hw, rfl⟩ := workLaunch_some h; exact hW
  | accept k =>
    have h := stepW_step h
    unfold step at h
    split at h
    · simp at h
    · obtain ⟨u, hl, hq, hs2, rfl⟩ := dispatchAccept_some h; exact hW
  | observeClosed =>
    have h := stepW_step h
    unfold step at h
    split at h
    · simp at h
    · obtain ⟨hl, hq, rfl⟩ := dispatchRangeEnds_some h; exact hW
  | matchTake k =>
    have h := stepW_step h
    unfold step at h
    split at h
    · simp at h
    · obtain ⟨u, w, rest, hw, hr, rfl⟩ := matchReceive_some h; exact hW
  | matchSend k =>
    have h := stepW_step h
    unfold step at h
    split at h
    · simp at h
    · obtain ⟨w, u, ph, c, hh, hw, ⟨hc, rfl⟩ | ⟨hc, hp, rfl⟩⟩ := matchDeliver_some h <;>
        exact hW
  | finish i =>
    have h := stepW_step h
    unfold step at h
    split at h
    · simp at h
    · obtain ⟨u, c, hw, rfl⟩ := waitReturn_some h; exact hW
  | rereg i =>
    have h := stepW_step h
    unfold step at h
    split at h
    · simp at h
    · obtain ⟨c, hw, hlt, rfl⟩ := waitRegister_some h; exact hW
  | exit i =>
    have h := stepW_step h
    unfold step at h
    split at h
    · simp at h
    · obtain ⟨hw, rfl⟩ := waitRangeEnds_some h; exact hW
  | shutTake =>
    have h := stepW_step h
    unfold step at h
    split at h
    · simp at h
    · obtain ⟨i, hl, ⟨hlt, w, rest, hr, rfl⟩ | ⟨hge, rfl⟩⟩ := dispatchShutReceive_some h <;> exact hW
  | shutClose =>
    have h := stepW_step h
    unfold step at h
    split at h
    · simp at h
    · obtain ⟨i, w, ph, c, hl, hw, ⟨hc, rfl⟩ | ⟨hc, rfl⟩⟩ := dispatchShutClose_some h <;> exact hW

theorem countP_pos_of_getElem? {α : Type} (p : α → Bool) {l : List α} {i : Nat} {b : α}
    (h : l[i]? = some b) (hp : p b = true) : 0 < List.countP p l := by
  rw [List.countP_pos_iff]
  exact ⟨b, List.mem_iff_getElem?.mpr ⟨i, h⟩, hp⟩

/-- With a waiting caller and no nil unit, no step panics. -/
theorem noFault_stepW {units : List Work} {s t : State} {a : Action}
    (hN : units.count none = 0) (hC : Counts s) (hP : Places units s)
    (h : stepW s a = some t) : t.fault = none := by
  have hS : SafeFault t := by
    have h2 := stepW_step h
    have h0 : s.fault = none := by
      unfold step at h2
      split at h2
      · simp at h2
      · next hf => simpa using hf
    exact safeFault_step hP (by constructor <;> simp [h0]) h2
  have h0 : s.fault = none := by
    have h2 := stepW_step h
    unfold step at h2
    split at h2
    · simp at h2
    · next hf => simpa using hf
  cases a with
  | close =>
    unfold stepW at h
    simp only at h
    split at h
    · next hwg =>
      unfold step at h
      split at h
      · simp at h
      · obtain ⟨hq, ⟨he, rfl⟩ | ⟨he, rfl⟩⟩ := callerClose_some h
        · exact h0
        · have := hC.wgCount
          have h3 : s.senders.length = 0 := by omega
          exact absurd (List.length_eq_zero.mp h3) he
    · simp at h
  | check i =>
    have h := stepW_step h
    unfold step at h
    split at h
    · simp at h
    · obtain ⟨c, ⟨hw, rfl⟩ | ⟨u, hw, rfl⟩⟩ := waitCheck_some h
      · have h3 := countP_pos_of_getElem? (gotIs none) hw (by simp [gotIs])
        have h4 := hP.unitsAt none
        omega
      · exact h0
  | spawn =>
    have h := stepW_step h
    unfold step at h
    split at h
    · simp at h
    · obtain ⟨i, hl, ⟨hlt, rfl⟩ | ⟨hge, rfl⟩⟩ := dispatchSpawn_some h <;> exact h0
  | announce i =>
    have h := stepW_step h
    unfold step at h
    split at h
    · simp at h
    · obtain ⟨c, hw, hlt, rfl⟩ := workRegister_some h; exact h0
  | launch i =>
    have h := stepW_step h
    unfold step at h
    split at h
    · simp at h
    · obtain ⟨c, hw, rfl⟩ := workLaunch_some h; exact h0
  | accept k =>
    have h := stepW_step h
    unfold step at h
    split at h
    · simp at h
    · obtain ⟨u, hl, hq, hs2, rfl⟩ := dispatchAccept_some h; exact h0
  | observeClosed =>
    have h := stepW_step h
    unfold step at h
    split at h
    · simp at h
    · obtain ⟨hl, hq, rfl⟩ := dispatchRangeEnds_some h; exact h0
  | matchTake k =>
    have h := stepW_step h
    unfold step at h
    split at h
    · simp at h
    · obtain ⟨u, w, rest, hw, hr, rfl⟩ := matchReceive_some h; exact h0
  | matchSend k =>
    have h := stepW_step h
    unfold step at h
    split at h
    · simp at h
    · obtain ⟨w, u, ph, c, hh, hw, ⟨hc, rfl⟩ | ⟨hc, hp, rfl⟩⟩ := matchDeliver_some h
      · exact absurd rfl hS.1
      · exact h0
  | finish i =>
    have h := stepW_step h
    unfold step at h
    split at h
    · simp at h
    · obtain ⟨u, c, hw, rfl⟩ := waitReturn_some h; exact h0
  | rereg i =>
    have h := stepW_step h
    unfold step at h
    split at h
    · simp at h
    · obtain ⟨c, hw, hlt, rfl⟩ := waitRegister_some h; exact h0
  | exit i =>
    have h := stepW_step h
    unfold step at h
    split at h
    · simp at h
    · obtain ⟨hw, rfl⟩ := waitRangeEnds_some h; exact h0
  | shutTake =>
    have h := stepW_step h
    unfold step at h
    split at h
    · simp at h
    · obtain ⟨i, hl, ⟨hlt, w, rest, hr, rfl⟩ | ⟨hge, rfl⟩⟩ := dispatchShutReceive_some h <;> exact h0
  | shutClose =>
    have h := stepW_step h
    unfold step at h
    split at h
    · simp at h
    · obtain ⟨i, w, ph, c, hl, hw, ⟨hc, rfl⟩ | ⟨hc, rfl⟩⟩ := dispatchShutClose_some h
      · exact absurd rfl hS.2
      · exact h0

/-- Invariants of every state reachable with a caller that waits before
closing and submits no nil unit. -/
theorem invW_reachable {n : Nat} {units : List Work} {s : State}
    (hN : units.count none = 0) (h : ReachableW (start n units) s) :
    Counts s ∧ Places units s ∧ Waited s ∧ s.fault = none := by
  have h1 := inv_reachable (reachableW_reachable h)
  obtain ⟨as, h⟩ := h
  have h2 := runW_induction
    (fun s => (Counts s ∧ Places units s) ∧ Waited s ∧ s.fault = none) ?_ as _ s ?_ h
  · exact ⟨h1.1, h1.2.1, h2.2.1, h2.2.2⟩
  · intro s t a ⟨⟨hC, hP⟩, hW, _⟩ hst
    exact ⟨⟨counts_step hC (stepW_step hst), places_step hP (stepW_step hst)⟩,
      waited_stepW hW hst, noFault_stepW hN hC hP hst⟩
  · exact ⟨⟨counts_start n units, places_start n units⟩, by simp [Waited, start], rfl⟩

/-! ## States in which nothing can move -/

theorem away_of_isGot (ws : WorkerSt) (h : ws.isGot = true) : ws.away = true := by
  unfold WorkerSt.isGot at h
  unfold WorkerSt.away
  split at h <;> simp_all

/-- In a state without panic where a waiting caller's system cannot move, no
worker is away. -/
theorem stuck_no_away {s : State} (hC : Counts s) (h0 : s.fault = none)
    (hT : ∀ a, stepW s a = none) (i : Nat) (ws : WorkerSt) (hw : s.workers[i]? = some ws) :
    ws.away = false := by
  cases ha : ws.away with
  | false => rfl
  | true =>
    exfalso
    have hpos := countP_pos_of_getElem? WorkerSt.away hw ha
    have hroom : s.reg.length < s.cap := by
      have := hC.handles
      have := hC.spawned_le
      omega
    obtain ⟨ph, c⟩ := ws
    cases ph with
    | announce =>
      have := hT (.announce i)
      simp [stepW, step, h0, workRegister, hw, hroom] at this
    | launch => simp [WorkerSt.away] at ha
    | idle => simp [WorkerSt.away] at ha
    | got w =>
      have := hT (.check i)
      cases w <;> simp [stepW, step, h0, waitCheck, hw] at this
    | busy u =>
      have := hT (.finish i)
      simp [stepW, step, h0, waitReturn, hw] at this
    | rereg =>
      have := hT (.rereg i)
      simp [stepW, step, h0, waitRegister, hw, hroom] at this
    | exited => simp [WorkerSt.away] at ha

theorem stuck_holding_nil {units : List Work} {s : State} (hP : Places units s)
    (h0 : s.fault = none) (hT : ∀ a, stepW s a = none) : s.holding = [] := by
  cases hh : s.holding with
  | nil => rfl
  | cons p rest =>
    exfalso
    obtain ⟨w, u⟩ := p
    have hk : s.holding[0]? = some (w, u) := by simp [hh]
    obtain ⟨ws, hws, hcl, haw⟩ := holding_open hP hk
    obtain ⟨ph, c⟩ := ws
    simp only at hcl
    subst hcl
    cases ph with
    | announce => simp [WorkerSt.away] at haw
    | launch =>
      have := hT (.launch w)
      simp [stepW, step, h0, workLaunch, hws] at this
    | idle =>
      have := hT (.matchSend 0)
      simp [stepW, step, h0, matchDeliver, hh, hws] at this
    | got w => simp [WorkerSt.away] at haw
    | busy u => simp [WorkerSt.away] at haw
    | rereg => simp [WorkerSt.away] at haw
    | exited =>
      have := hP.exitedClosed w _ hws rfl
      simp at this

/-- Shape of the states in which a pool with at least one worker, a waiting
caller and no panic cannot move: shutdown is complete. -/
theorem stuck_shape {units : List Work} {s : State} (hcap : 1 ≤ s.cap) (hC : Counts s)
    (hP : Places units s) (hW : Waited s) (h0 : s.fault = none)
    (hT : ∀ a, stepW s a = none) :
    s.loop = .finished ∧ s.queueClosed = true ∧ s.senders = [] ∧ s.waiting = []
      ∧ s.holding = [] ∧ s.reg = [] ∧ s.workers.length = s.cap
      ∧ (∀ ws ∈ s.workers, ws = ⟨.exited, true⟩) ∧ s.workers.countP WorkerSt.away = 0 := by
  have hholding := stuck_holding_nil hP h0 hT
  have haway : s.workers.countP WorkerSt.away = 0 := by
    rw [List.countP_eq_zero]
    intro ws hws
    obtain ⟨i, hi⟩ := List.mem_iff_getElem?.mp hws
    simp [stuck_no_away hC h0 hT i ws hi]
  have hgot : s.workers.countP WorkerSt.isGot = 0 := by
    rw [List.countP_eq_zero]
    intro ws hws hg
    have := away_of_isGot ws hg
    rw [List.countP_eq_zero] at haway
    exact haway ws hws this
  have hhl : s.holding.length = 0 := by simp [hholding]
  have c1 := hC.spawned
  have c3 := hC.handles
  have c4 := hC.shutLen
  have c6 := hC.closedCount
  have c7 := hC.wgCount
  cases hl : s.loop with
  | spawning i =>
    exfalso
    have := hT .spawn
    by_cases hlt : i < s.cap <;> simp [stepW, step, h0, dispatchSpawn, hl, hlt] at this
  | closing j w =>
    exfalso
    obtain ⟨ws, hws, hcl, _⟩ := closing_open hP hl
    obtain ⟨ph, c⟩ := ws
    simp only at hcl
    subst hcl
    have := hT .shutClose
    simp [stepW, step, h0, dispatchShutClose, hl, hws] at this
  | ranging =>
    exfalso
    simp only [hl, spawnedOf, shutOf, closingNow] at c1 c4 c6
    cases hq : s.queueClosed with
    | true =>
      have := hT .observeClosed
      simp [stepW, step, h0, dispatchRangeEnds, hl, hq] at this
    | false =>
      have hs : s.senders = [] := by
        cases hs : s.senders with
        | nil => rfl
        | cons u rest =>
          have := hT (.accept 0)
          simp [stepW, step, h0, dispatchAccept, hl, hq, hs] at this
      have hwt : s.waiting = [] := by
        cases hwt : s.waiting with
        | nil => rfl
        | cons u rest =>
          cases hr : s.reg with
          | nil => rw [hr, List.length_nil] at c3; omega
          | cons w rest2 =>
            have := hT (.matchTake 0)
            simp [stepW, step, h0, matchReceive, hwt, hr] at this
      have hwg : s.wg = 0 := by rw [hs, hwt, List.length_nil] at c7; omega
      have := hT .close
      simp [stepW, step, h0, callerClose, hq, hwg, hs] at this
  | taking i =>
    exfalso
    simp only [hl, spawnedOf, shutOf, closingNow] at c1 c4 c6
    have := hT .shutTake
    by_cases hlt : i < s.cap
    · cases hr : s.reg with
      | nil => rw [hr, List.length_nil] at c3; omega
      | cons w rest => simp [stepW, step, h0, dispatchShutReceive, hl, hlt, hr] at this
    · simp [stepW, step, h0, dispatchShutReceive, hl, hlt] at this
  | finished =>
    simp only [hl, spawnedOf, shutOf, closingNow] at c1 c4 c6
    have hq : s.queueClosed = true := by
      cases hq : s.queueClosed with
      | true => rfl
      | false => exact absurd hl (hC.openLoop hq).2.2.1
    have hwg := hW hq
    have hs : s.senders = [] := List.length_eq_zero.mp (by omega)
    have hwt : s.waiting = [] := List.length_eq_zero.mp (by omega)
    have hr : s.reg = [] := List.length_eq_zero.mp (by omega)
    refine ⟨rfl, hq, hs, hwt, hholding, hr, c1, ?_, haway⟩
    intro ws hws
    have hall : ∀ a ∈ s.workers, WorkerSt.closed a = true :=
      List.countP_eq_length.mp (by omega)
    have hcl := hall ws hws
    obtain ⟨i, hi⟩ := List.mem_iff_getElem?.mp hws
    have haw := stuck_no_away hC h0 hT i ws hi
    obtain ⟨ph, c⟩ := ws
    simp only at hcl
    subst hcl
    cases ph with
    | announce => simp [WorkerSt.away] at haw
    | launch =>
      have := hT (.launch i)
      simp [stepW, step, h0, workLaunch, hi] at this
    | idle =>
      have := hT (.exit i)
      simp [stepW, step, h0, waitRangeEnds, hi] at this
    | got w => simp [WorkerSt.away] at haw
    | busy u => simp [WorkerSt.away] at haw
    | rereg => simp [WorkerSt.away] at haw
    | exited => rfl

/-! ## The claims -/

theorem count_some_unitsUpTo (m k : Nat) :
    (unitsUpTo m).count (some k) = if k < m then 1 else 0 := by
  unfold unitsUpTo
  induction m with
  | zero => simp
  | succ n ih =>
    rw [List.range_succ, List.map_append, List.count_append, ih]
    simp only [List.map_cons, List.map_nil, List.count_cons, List.count_nil]
    by_cases h1 : k < n
    · have h2 : ¬ n = k := by omega
      have h3 : k < n + 1 := by omega
      simp [h1, h2, h3]
    · by_cases h2 : n = k
      · subst h2; simp
      · have h3 : ¬ k < n + 1 := by omega
        simp [h1, h2, h3]

theorem count_none_unitsUpTo (m : Nat) : (unitsUpTo m).count none = 0 := by
  apply List.count_eq_zero_of_not_mem
  simp [unitsUpTo]

theorem New_ok {L : Nat} {N : Int} {units : List Work} {s0 : State}
    (h : New L N units = .ok s0) : 0 ≤ N ∧ N ≤ L ∧ s0 = start N.toNat units := by
  unfold New at h
  split at h
  · cases h
  · next hn =>
    refine ⟨by omega, by omega, ?_⟩
    cases h
    rfl

theorem countP_gotIs_le (u : Work) (l : List WorkerSt) :
    List.countP (gotIs u) l ≤ List.countP WorkerSt.away l := by
  apply List.countP_mono_left
  intro ws _ h
  unfold gotIs at h
  unfold WorkerSt.away
  simp at h
  simp [h]

theorem countP_busyIs_le (k : Nat) (l : List WorkerSt) :
    List.countP (busyIs k) l ≤ List.countP WorkerSt.away l := by
  apply List.countP_mono_left
  intro ws _ h
  unfold busyIs at h
  unfold WorkerSt.away
  simp at h
  simp [h]

/-- C1: with a pool of size `N ≥ 1` returned by `New` (for any limit `L` on
the channel capacity), `M` distinct non-nil units and a caller that closes the
queue only after its wait group reached zero, no unit is ever begun twice, no unit is ever in the hands of two workers
(or of a worker and a match goroutine) at once, and in every state where no
step is enabled each of the `M` units has been begun and completed exactly
once. -/
theorem C1_every_unit_executed_exactly_once (L : Nat) (N : Int) (M : Nat) (s0 s : State)
    (hN : 1 ≤ N) (hNew : New L N (unitsUpTo M) = .ok s0) (h : ReachableW s0 s) :
    (∀ k, s.started.count k ≤ 1)
    ∧ (∀ k, (s.holding.map Prod.snd).count (some k) + s.workers.countP (gotIs (some k))
        + s.workers.countP (busyIs k) ≤ 1)
    ∧ ((∀ a, stepW s a = none) →
        ∀ k, k < M → s.started.count k = 1 ∧ s.completed.count k = 1) := by
  obtain ⟨_, _, rfl⟩ := New_ok hNew
  obtain ⟨hC, hP, hW, h0⟩ := invW_reachable (count_none_unitsUpTo M) h
  have hcap := cap_reachable (reachableW_reachable h)
  have hle : ∀ k, (unitsUpTo M).count (some k) ≤ 1 := by
    intro k; rw [count_some_unitsUpTo]; split <;> omega
  refine ⟨?_, ?_, ?_⟩
  · intro k
    have h1 := hP.unitsAt (some k)
    have h2 := hle k
    simp only [startedOf] at h1
    omega
  · intro k
    have h1 := hP.unitsAt (some k)
    have h2 := hle k
    have h3 := hP.runs k
    simp only [startedOf] at h1
    omega
  · intro hT k hk
    obtain ⟨_, _, hs, hwt, hh, _, _, hall, haway⟩ :=
      stuck_shape (by omega) hC hP hW h0 hT
    have h1 := hP.unitsAt (some k)
    have h3 := hP.runs k
    have h4 := countP_gotIs_le (some k) s.workers
    have h5 := countP_busyIs_le k s.workers
    rw [count_some_unitsUpTo, if_pos hk, hs, hwt, hh] at h1
    simp only [startedOf, List.count_nil, List.map_nil] at h1
    omega

theorem fullFinal_reachableW : ReachableW (start 2 (unitsUpTo 2)) fullFinal :=
  ⟨fullSchedule, by decide⟩

theorem fullFinal_quiet : ∀ a, step fullFinal a = none := by
  intro a
  cases a with
  | spawn => rfl
  | announce i => rcases i with _ | _ | i <;> rfl
  | launch i => rcases i with _ | _ | i <;> rfl
  | accept k => rfl
  | close => rfl
  | observeClosed => rfl
  | matchTake k => rfl
  | matchSend k => rfl
  | check i => rcases i with _ | _ | i <;> rfl
  | finish i => rcases i with _ | _ | i <;> rfl
  | rereg i => rcases i with _ | _ | i <;> rfl
  | exit i => rcases i with _ | _ | i <;> rfl
  | shutTake => rfl
  | shutClose => rfl

theorem stepW_none_of_step {s : State} (h : ∀ a, step s a = none) : ∀ a, stepW s a = none := by
  intro a
  cases a <;> simp only [stepW] <;> first | exact h _ | skip
  split
  · exact h _
  · rfl

/-- C1 (witness): the theorem at a pool of two workers and two units, in the
state the complete schedule ends in. -/
theorem C1_witness :
    (1 : Int) ≤ 2 ∧ New 1024 2 (unitsUpTo 2) = .ok (start 2 (unitsUpTo 2))
      ∧ ReachableW (start 2 (unitsUpTo 2)) fullFinal
      ∧ (∀ k, k < 2 → fullFinal.started.count k = 1 ∧ fullFinal.completed.count k = 1) :=
  ⟨by decide, rfl, fullFinal_reachableW,
    (C1_every_unit_executed_exactly_once 1024 2 2 _ fullFinal (by decide) rfl
      fullFinal_reachableW).2.2 (stepW_none_of_step fullFinal_quiet)⟩

theorem closed_not_away {units : List Work} {s : State} (hP : Places units s) {i : Nat}
    {ws : WorkerSt} (hw : s.workers[i]? = some ws) (hc : ws.closed = true) :
    ws.away = false := by
  have h1 : 0 < List.count i s.shut := List.count_pos_iff.mpr (hP.closedShut i ws hw hc).1
  have h2 := hP.once i
  have h3 := created_le_one s.workers i
  have h6 := awayAt_eq hw
  cases ha : ws.away with
  | false => rfl
  | true => simp [ha] at h6; omega

theorem dropped_worker {s : State} (hD : Dropped s) {i : Nat} {ws : WorkerSt}
    (hw : s.workers[i]? = some ws) :
    i = 0 ∧ (ws = ⟨.idle, true⟩ ∨ ws = ⟨.exited, true⟩) := by
  obtain ⟨_, _, _, _, _, _, _, _, hws⟩ := hD
  rcases hws with hws | hws <;> rw [hws] at hw <;> rcases i with _ | i <;> simp at hw
  · exact ⟨rfl, Or.inl hw.symm⟩
  · exact ⟨rfl, Or.inr hw.symm⟩

theorem dropped_step {s t : State} {a : Action} (hD : Dropped s) (h : step s a = some t) :
    Dropped t := by
  have hD0 := hD
  obtain ⟨d1, d2, d3, d4, d5, d6, d7, d8, d9⟩ := hD
  unfold step at h
  split at h
  · simp at h
  · cases a with
    | spawn =>
      obtain ⟨i, hl, _⟩ := dispatchSpawn_some h
      rcases d8 with d8 | d8 <;> rw [d8] at hl <;> cases hl
    | announce i =>
      obtain ⟨c, hw, _⟩ := workRegister_some h
      rcases (dropped_worker hD0 hw).2 with e | e <;> cases e
    | launch i =>
      obtain ⟨c, hw, _⟩ := workLaunch_some h
      rcases (dropped_worker hD0 hw).2 with e | e <;> cases e
    | accept k =>
      obtain ⟨u, hl, _⟩ := dispatchAccept_some h
      rcases d8 with d8 | d8 <;> rw [d8] at hl <;> cases hl
    | close =>
      obtain ⟨hq, _⟩ := callerClose_some h
      rw [d7] at hq
      cases hq
    | observeClosed =>
      obtain ⟨hl, _⟩ := dispatchRangeEnds_some h
      rcases d8 with d8 | d8 <;> rw [d8] at hl <;> cases hl
    | matchTake k =>
      obtain ⟨u, w, rest, _, hr, _⟩ := matchReceive_some h
      rw [d2] at hr
      cases hr
    | matchSend k =>
      obtain ⟨w, u, ph, c, hh, _⟩ := matchDeliver_some h
      rw [d3] at hh
      simp at hh
    | check i =>
      obtain ⟨c, ⟨hw, _⟩ | ⟨u, hw, _⟩⟩ := waitCheck_some h <;>
        rcases (dropped_worker hD0 hw).2 with e | e <;> cases e
    | finish i =>
      obtain ⟨u, c, hw, _⟩ := waitReturn_some h
      rcases (dropped_worker hD0 hw).2 with e | e <;> cases e
    | rereg i =>
      obtain ⟨c, hw, _⟩ := waitRegister_some h
      rcases (dropped_worker hD0 hw).2 with e | e <;> cases e
    | exit i =>
      obtain ⟨hw, rfl⟩ := waitRangeEnds_some h
      obtain ⟨hi, _⟩ := dropped_worker hD0 hw
      subst hi
      refine ⟨d1, d2, d3, d4, d5, d6, d7, d8, Or.inr ?_⟩
      rcases d9 with d9 | d9 <;> simp [d9]
    | shutTake =>
      obtain ⟨i, hl, ⟨hlt, w, rest, hr, _⟩ | ⟨_, rfl⟩⟩ := dispatchShutReceive_some h
      · rw [d2] at hr
        cases hr
      · exact ⟨d1, d2, d3, d4, d5, d6, d7, Or.inr rfl, d9⟩
    | shutClose =>
      obtain ⟨i, w, ph, c, hl, _⟩ := dispatchShutClose_some h
      rcases d8 with d8 | d8 <;> rw [d8] at hl <;> cases hl

/-- C2 (the code at the failing input): with one worker and one unit, when
the caller closes the queue right after its send has returned, the schedule
`earlyClose` leads without panic to a state in which the unit has been
received from the queue and not begun while the only worker's channel is
closed; and in every state reachable from there the unit is still with its
match goroutine at line 48 and has not begun: it never runs. -/
theorem C2_unit_dropped_when_closed_early :
    Reachable (start 1 [some 0]) dropState ∧ dropState.fault = none
      ∧ some 0 ∈ dropState.accepted ∧ 0 ∉ dropState.started
      ∧ dropState.workers.length = 1 ∧ (∀ ws ∈ dropState.workers, ws.closed = true)
      ∧ ∀ s, Reachable dropState s →
          s.waiting = [some 0] ∧ 0 ∉ s.started ∧ s.fault = none
            ∧ ∀ ws ∈ s.workers, ws.closed = true := by
  refine ⟨⟨earlyClose, by decide⟩, rfl, by decide, by decide, by decide, by decide, ?_⟩
  intro s ⟨as, hrun⟩
  have hD : Dropped s :=
    run_induction Dropped (fun s t a hs hst => dropped_step hs hst) as dropState s
      (by simp [Dropped, dropState]) hrun
  obtain ⟨_, _, _, d4, d5, d6, _, _, d9⟩ := hD
  refine ⟨d4, by simp [d5], d6, ?_⟩
  rcases d9 with d9 | d9 <;> simp [d9]

theorem leakState_quiet : ∀ a, step leakState a = none := by
  intro a
  cases a with
  | spawn => rfl
  | announce i => rcases i with _ | i <;> rfl
  | launch i => rcases i with _ | i <;> rfl
  | accept k => rfl
  | close => rfl
  | observeClosed => rfl
  | matchTake k => rcases k with _ | _ | k <;> rfl
  | matchSend k => rfl
  | check i => rcases i with _ | i <;> rfl
  | finish i => rcases i with _ | i <;> rfl
  | rereg i => rcases i with _ | i <;> rfl
  | exit i => rcases i with _ | i <;> rfl
  | shutTake => rfl
  | shutClose => rfl

/-- C10 (the code at the failing input): with one worker and one non-nil
unit, when the caller closes the queue right after its send has returned, the
schedule `earlyClose` followed by the end of the shutdown leads without panic
to a state in which the queue is closed, no step is enabled, the shutdown loop
has finished and the only worker is closed and out of its loop, while the
match goroutine of the unit is still blocked on the registry and the unit has
not begun. -/
theorem C10_match_goroutine_left_blocked :
    Reachable (start 1 [some 0]) leakState ∧ leakState.queueClosed = true
      ∧ leakState.fault = none ∧ (∀ a, step leakState a = none)
      ∧ leakState.loop = .finished ∧ (∀ ws ∈ leakState.workers, ws = ⟨.exited, true⟩)
      ∧ leakState.waiting = [some 0] ∧ leakState.started = [] :=
  ⟨⟨earlyClose ++ [.exit 0, .shutTake], by decide⟩, rfl, rfl, leakState_quiet, rfl,
    by decide, rfl, rfl⟩

theorem away_split (l : List WorkerSt) :
    List.countP WorkerSt.away l
      = List.countP WorkerSt.isAnnounce l + List.countP WorkerSt.working l := by
  induction l with
  | nil => rfl
  | cons ws rest ih =>
    obtain ⟨ph, c⟩ := ws
    simp only [List.countP_cons, ih]
    cases ph <;> simp [WorkerSt.away, WorkerSt.isAnnounce, WorkerSt.working] <;> omega

theorem reg_nodup {units : List Work} {s : State} (hP : Places units s) : s.reg.Nodup := by
  rw [List.nodup_iff_count_le_one]
  intro i
  have h2 := hP.once i
  have h3 := created_le_one s.workers i
  omega

/-- C3 (counterexample): right after `New` of a pool of size 1, and after the
complete shutdown of a pool of size 2, the registry entries, the executing
workers and the handles held by match goroutines add up to 0, not to the pool
size. -/
theorem C3_counterexample :
    Reachable (start 1 []) (start 1 [])
      ∧ (start 1 []).reg.length + executing (start 1 []) + (start 1 []).holding.length ≠ 1
      ∧ Reachable (start 2 (unitsUpTo 2)) fullFinal
      ∧ fullFinal.reg.length + executing fullFinal + fullFinal.holding.length ≠ 2 :=
  ⟨⟨[], rfl⟩, by decide, ⟨fullSchedule, by decide⟩, by decide⟩

/-- C3 (amended): in every reachable state of a pool created with size `N`,
the handles in the registry, the workers that received a unit and have not
re-registered, the handles held by match goroutines, the workers that have
never registered and the handles received by the shutdown loop add up to `N`,
and no handle is in the registry twice; so once every worker has registered
and while the shutdown loop has received none, the first three add up to
`N`. -/
theorem C3_worker_accounting (N : Nat) (units : List Work) (s : State)
    (h : Reachable (start N units) s) :
    s.reg.length + executing s + s.holding.length + unregistered s + s.shut.length = N
      ∧ s.reg.Nodup
      ∧ (unregistered s = 0 → s.shut = [] →
          s.reg.length + executing s + s.holding.length = N) := by
  obtain ⟨hC, hP, _⟩ := inv_reachable h
  have hcap := cap_reachable h
  have c2 := hC.spawned_le
  have c3 := hC.handles
  have h1 := away_split s.workers
  have hsum : s.reg.length + executing s + s.holding.length + unregistered s
      + s.shut.length = N := by
    unfold executing unregistered
    omega
  refine ⟨hsum, reg_nodup hP, ?_⟩
  intro hu hs
  rw [hu, hs, List.length_nil] at hsum
  omega

/-- C3 (witness): the amended theorem at a pool of two workers in steady
operation. -/
theorem C3_witness :
    Reachable (start 2 (unitsUpTo 2)) midState
      ∧ midState.reg.length + executing midState + midState.holding.length
          + unregistered midState + midState.shut.length = 2
      ∧ midState.reg.Nodup
      ∧ (unregistered midState = 0 → midState.shut = [] →
          midState.reg.length + executing midState + midState.holding.length = 2) :=
  ⟨⟨midSchedule, by decide⟩,
    C3_worker_accounting 2 (unitsUpTo 2) midState ⟨midSchedule, by decide⟩⟩

/-- C4: in every reachable state of a pool of size `N`, at most `N` workers
are inside a call `work()`; every unit received from the queue is with a match
goroutine (waiting for a handle or holding one), in the hand of a worker at
the nil check, or has been begun, and every unit begun is being executed or
has completed; the send of a match goroutine never hits a closed worker
channel; and with `N = 1` the units begun exceed the units completed by at
most one, so a unit begins only when all units begun before have completed. -/
theorem C4_at_most_N_executing (N : Nat) (units : List Work) (s : State)
    (h : Reachable (start N units) s) :
    s.workers.countP WorkerSt.isBusy ≤ N
      ∧ (∀ u, s.accepted.count u = s.waiting.count u + (s.holding.map Prod.snd).count u
          + s.workers.countP (gotIs u) + startedOf s.started u)
      ∧ (∀ k, s.started.count k = s.workers.countP (busyIs k) + s.completed.count k)
      ∧ s.fault ≠ some .sendOnClosedWorker
      ∧ (N = 1 → s.started.length ≤ s.completed.length + 1) := by
  obtain ⟨hC, hP, hS⟩ := inv_reachable h
  have hcap := cap_reachable h
  have c2 := hC.spawned_le
  have c9 := hC.startedCount
  have h1 : s.workers.countP WorkerSt.isBusy ≤ s.workers.length := List.countP_le_length _
  refine ⟨by omega, ?_, hP.runs, hS.1, by omega⟩
  intro u
  have h2 := hP.acc u
  have h3 := hP.unitsAt u
  omega

/-- C4 (witness): the theorem at a pool of one worker and two units, while the
second unit waits for the worker. -/
theorem C4_witness :
    Reachable (start 1 (unitsUpTo 2)) pressureState
      ∧ pressureState.workers.countP WorkerSt.isBusy ≤ 1
      ∧ pressureState.waiting = [some 1]
      ∧ pressureState.started.length ≤ pressureState.completed.length + 1 :=
  ⟨⟨pressureSchedule, by decide⟩,
    (C4_at_most_N_executing 1 (unitsUpTo 2) pressureState ⟨pressureSchedule, by decide⟩).1,
    rfl,
    (C4_at_most_N_executing 1 (unitsUpTo 2) pressureState
      ⟨pressureSchedule, by decide⟩).2.2.2.2 rfl⟩

theorem idle_cases_of_not_away {ws : WorkerSt} (h : ws.away = false) :
    ws.phase = .launch ∨ ws.phase = .idle ∨ ws.phase = .exited := by
  obtain ⟨ph, c⟩ := ws
  cases ph <;> simp [WorkerSt.away] at h ⊢

theorem started_needs_worker_step {s t : State} {a : Action}
    (hI : s.workers = [] → s.started = []) (h : step s a = some t) :
    t.workers = [] → t.started = [] := by
  unfold step at h
  split at h
  · simp at h
  · cases a with
    | spawn =>
      obtain ⟨i, hl, ⟨hlt, rfl⟩ | ⟨hge, rfl⟩⟩ := dispatchSpawn_some h
      · intro hw; simp at hw
      · exact hI
    | announce i =>
      obtain ⟨c, hw, hlt, rfl⟩ := workRegister_some h
      intro hw2; simp at hw2; simp [hw2] at hw
    | launch i =>
      obtain ⟨c, hw, rfl⟩ := workLaunch_some h
      intro hw2; simp at hw2; simp [hw2] at hw
    | accept k => obtain ⟨u, hl, hq, hs2, rfl⟩ := dispatchAccept_some h; exact hI
    | close =>
      obtain ⟨hq, ⟨he, rfl⟩ | ⟨he, rfl⟩⟩ := callerClose_some h <;> exact hI
    | observeClosed => obtain ⟨hl, hq, rfl⟩ := dispatchRangeEnds_some h; exact hI
    | matchTake k => obtain ⟨u, w, rest, hw, hr, rfl⟩ := matchReceive_some h; exact hI
    | matchSend k =>
      obtain ⟨w, u, ph, c, hh, hw, ⟨hc, rfl⟩ | ⟨hc, hp, rfl⟩⟩ := matchDeliver_some h
      · exact hI
      · intro hw2; simp at hw2; simp [hw2] at hw
    | check i =>
      obtain ⟨c, ⟨hw, rfl⟩ | ⟨u, hw, rfl⟩⟩ := waitCheck_some h
      · exact hI
      · intro hw2; simp at hw2; simp [hw2] at hw
    | finish i =>
      obtain ⟨u, c, hw, rfl⟩ := waitReturn_some h
      intro hw2; simp at hw2; simp [hw2] at hw
    | rereg i =>
      obtain ⟨c, hw, hlt, rfl⟩ := waitRegister_some h
      intro hw2; simp at hw2; simp [hw2] at hw
    | exit i =>
      obtain ⟨hw, rfl⟩ := waitRangeEnds_some h
      intro hw2; simp at hw2; simp [hw2] at hw
    | shutTake =>
      obtain ⟨i, hl, ⟨hlt, w, rest, hr, rfl⟩ | ⟨hge, rfl⟩⟩ := dispatchShutReceive_some h <;> exact hI
    | shutClose =>
      obtain ⟨i, w, ph, c, hl, hw, ⟨hc, rfl⟩ | ⟨hc, rfl⟩⟩ := dispatchShutClose_some h
      · exact hI
      · intro hw2; simp at hw2; simp [hw2] at hw

/-- C5 (counterexample): `New` with pool size 0 does not fail, whether the
largest channel capacity is the smallest possible, 0, or `2 ^ 48`; it returns
the queue of a pool without workers. -/
theorem C5_counterexample :
    (0 : Int) ≤ 0 ∧ New 0 0 [some 0] = .ok (start 0 [some 0])
      ∧ New (2 ^ 48) 0 [some 0] = .ok (start 0 [some 0]) :=
  ⟨by decide, rfl, rfl⟩

/-- C5 (amended): `New` fails, at the call, exactly for a pool size that is
negative or above the largest channel capacity `L` (the panic of `make`); for
every pool size from 0 to `L` it returns a queue, and for pool size 0 the pool
behind that queue never creates a worker and never begins a unit. -/
theorem C5_New_fails_only_for_size_out_of_range (L : Nat) (n : Int) (units : List Work) :
    (n < 0 ∨ (L : Int) < n → New L n units = .error .makechanSize)
      ∧ (0 ≤ n → n ≤ (L : Int) → New L n units = .ok (start n.toNat units))
      ∧ (n = 0 → ∀ s, Reachable (start n.toNat units) s →
          s.workers = [] ∧ s.started = []) := by
  refine ⟨?_, ?_, ?_⟩
  · intro h; simp [New, h]
  · intro h1 h2
    have : ¬ (n < 0 ∨ (L : Int) < n) := by omega
    simp [New, this]
  · intro h0 s hs
    subst h0
    have hC := (inv_reachable hs).1
    have hcap := cap_reachable hs
    have hw : s.workers = [] := by
      have := hC.spawned_le
      simp at hcap
      exact List.length_eq_zero.mp (by omega)
    refine ⟨hw, ?_⟩
    obtain ⟨as, hrun⟩ := hs
    exact run_induction (fun s => s.workers = [] → s.started = [])
      (fun s t a hI hst => started_needs_worker_step hI hst) as _ s (fun _ => rfl) hrun hw

/-- C5 (witness): the amended theorem with channel capacity limit 1024 at the
pool sizes -1, 2000, 3 and 0. -/
theorem C5_witness :
    New 1024 (-1) [some 0] = .error .makechanSize
      ∧ New 1024 2000 [some 0] = .error .makechanSize
      ∧ New 1024 3 [some 0] = .ok (start 3 [some 0])
      ∧ (∀ s, Reachable (start 0 [some 0]) s → s.workers = [] ∧ s.started = []) :=
  ⟨(C5_New_fails_only_for_size_out_of_range 1024 (-1) [some 0]).1 (Or.inl (by decide)),
    (C5_New_fails_only_for_size_out_of_range 1024 2000 [some 0]).1 (Or.inr (by decide)),
    (C5_New_fails_only_for_size_out_of_range 1024 3 [some 0]).2.1 (by decide) (by decide),
    (C5_New_fails_only_for_size_out_of_range 1024 0 [some 0]).2.2 rfl⟩

/-- C6: a worker that has received the nil unit can only panic with
`nilWork`: that step leaves the registry and the units begun unchanged, after
it no step is enabled, and the worker can neither return from a call,
re-register nor leave its loop instead; a worker that has received a non-nil
unit begins that unit and no panic is raised. -/
theorem C6_nil_work_panics (s : State) (i : Nat) (c : Bool) (hf : s.fault = none) :
    (s.workers[i]? = some ⟨.got none, c⟩ →
        step s (.check i) = some { s with fault := some .nilWork }
          ∧ (∀ a, step { s with fault := some .nilWork } a = none)
          ∧ step s (.finish i) = none ∧ step s (.rereg i) = none
          ∧ step s (.exit i) = none ∧ step s (.announce i) = none
          ∧ step s (.launch i) = none)
      ∧ (∀ u, s.workers[i]? = some ⟨.got (some u), c⟩ →
          step s (.check i) = some { s with workers := s.workers.set i ⟨.busy u, c⟩,
                                            started := s.started ++ [u],
                                            wg := s.wg - 1 }) := by
  refine ⟨?_, ?_⟩
  · intro hw
    refine ⟨?_, ?_, ?_, ?_, ?_, ?_, ?_⟩
    · simp [step, hf, waitCheck, hw]
    · intro a; simp [step]
    · simp [step, hf, waitReturn, hw]
    · simp [step, hf, waitRegister, hw]
    · simp [step, hf, waitRangeEnds, hw]
    · simp [step, hf, workRegister, hw]
    · simp [step, hf, workLaunch, hw]
  · intro u hw
    simp [step, hf, waitCheck, hw]

/-- C6 (witness): the theorem at a worker that has received the nil unit, in a
reachable state, and at a worker that has received unit 0. -/
theorem C6_witness :
    Reachable (start 1 [none]) nilState
      ∧ step nilState (.check 0) = some { nilState with fault := some .nilWork }
      ∧ (∀ a, step { nilState with fault := some .nilWork } a = none)
      ∧ step gotState (.check 0)
          = some { gotState with workers := gotState.workers.set 0 ⟨.busy 0, false⟩,
                                 started := gotState.started ++ [0],
                                 wg := gotState.wg - 1 } :=
  ⟨⟨nilSchedule, by decide⟩,
    ((C6_nil_work_panics nilState 0 false rfl).1 rfl).1,
    ((C6_nil_work_panics nilState 0 false rfl).1 rfl).2.1,
    (C6_nil_work_panics gotState 0 false rfl).2 0 rfl⟩

theorem shut_nodup {units : List Work} {s : State} (hP : Places units s) : s.shut.Nodup := by
  rw [List.nodup_iff_count_le_one]
  intro i
  have h2 := hP.once i
  have h3 := created_le_one s.workers i
  omega

theorem lt_of_created_pos (l : List WorkerSt) (i : Nat) (h : 0 < created l i) :
    i < l.length := by
  unfold created at h
  split at h
  · assumption
  · omega

/-- C7: in every reachable state of a pool of size `N`, the worker handles
received so far by the shutdown loop are pairwise distinct handles of created
workers, at most `N` of them, and none before the queue was closed; a closed
worker channel is always one of them; the channel the loop is about to close
is still open, so `close` never panics; and when the loop has finished it has
received exactly `N` handles and all `N` workers exist and are closed. -/
theorem C7_every_worker_closed_exactly_once (N : Nat) (units : List Work) (s : State)
    (h : Reachable (start N units) s) :
    s.shut.Nodup ∧ s.shut.length ≤ N ∧ (∀ i ∈ s.shut, i < N)
      ∧ (s.queueClosed = false → s.shut = [])
      ∧ (∀ (i : Nat) (ws : WorkerSt), s.workers[i]? = some ws → ws.closed = true →
          i ∈ s.shut)
      ∧ (∀ j w, s.loop = .closing j w →
          ∃ ws, s.workers[w]? = some ws ∧ ws.closed = false)
      ∧ s.fault ≠ some .closeOfClosedWorker
      ∧ (s.loop = .finished → s.shut.length = N ∧ s.workers.length = N
          ∧ ∀ ws ∈ s.workers, ws.closed = true) := by
  obtain ⟨hC, hP, hS⟩ := inv_reachable h
  have hcap := cap_reachable h
  have c1 := hC.spawned
  have c2 := hC.spawned_le
  have c4 := hC.shutLen
  have c5 := hC.shut_le
  have c6 := hC.closedCount
  refine ⟨shut_nodup hP, by omega, ?_, ?_, ?_, ?_, hS.2, ?_⟩
  · intro i hi
    have h1 : 0 < List.count i s.shut := List.count_pos_iff.mpr hi
    have h2 := hP.once i
    have := lt_of_created_pos s.workers i (by omega)
    omega
  · intro hq
    have := (hC.openLoop hq).1
    exact List.length_eq_zero.mp (by omega)
  · intro i ws hw hc
    exact (hP.closedShut i ws hw hc).1
  · intro j w hl
    obtain ⟨ws, hws, hcl, _⟩ := closing_open hP hl
    exact ⟨ws, hws, hcl⟩
  · intro hl
    simp only [hl, spawnedOf, shutOf, closingNow] at c1 c4 c6
    refine ⟨by omega, by omega, ?_⟩
    exact List.countP_eq_length.mp (by omega)

/-- C7 (witness): the theorem at a pool of two workers after its shutdown. -/
theorem C7_witness :
    Reachable (start 2 (unitsUpTo 2)) fullFinal
      ∧ fullFinal.shut.Nodup ∧ fullFinal.shut.length = 2 ∧ fullFinal.workers.length = 2
      ∧ ∀ ws ∈ fullFinal.workers, ws.closed = true :=
  ⟨⟨fullSchedule, by decide⟩,
    (C7_every_worker_closed_exactly_once 2 (unitsUpTo 2) fullFinal
      ⟨fullSchedule, by decide⟩).1,
    (C7_every_worker_closed_exactly_once 2 (unitsUpTo 2) fullFinal
      ⟨fullSchedule, by decide⟩).2.2.2.2.2.2.2 rfl⟩

theorem not_mem_of_count_eq_zero {l : List Nat} {i : Nat} (h : List.count i l = 0) :
    i ∉ l := fun hm => by
  have := List.count_pos_iff.mpr hm
  omega

/-- C8: in every reachable state, a worker whose channel is closed has
registered and is not executing (it is at `go w.wait(d)`, blocked in
`range w`, or has left its loop), and its handle is neither held by a match
goroutine nor in the registry; the same holds, with the loop not yet left, for
the worker whose channel the shutdown loop is about to close; and the send of
a match goroutine never hits a closed worker channel. -/
theorem C8_closed_only_when_idle (N : Nat) (units : List Work) (s : State)
    (h : Reachable (start N units) s) :
    (∀ (i : Nat) (ws : WorkerSt), s.workers[i]? = some ws → ws.closed = true →
        (ws.phase = .launch ∨ ws.phase = .idle ∨ ws.phase = .exited)
          ∧ i ∉ s.holding.map Prod.fst ∧ i ∉ s.reg)
      ∧ (∀ j w, s.loop = .closing j w →
          ∃ ws, s.workers[w]? = some ws ∧ (ws.phase = .launch ∨ ws.phase = .idle)
            ∧ w ∉ s.holding.map Prod.fst ∧ w ∉ s.reg)
      ∧ s.fault ≠ some .sendOnClosedWorker := by
  obtain ⟨hC, hP, hS⟩ := inv_reachable h
  refine ⟨?_, ?_, hS.1⟩
  · intro i ws hw hc
    have h1 : 0 < List.count i s.shut := List.count_pos_iff.mpr (hP.closedShut i ws hw hc).1
    have h2 := hP.once i
    have h3 := created_le_one s.workers i
    exact ⟨idle_cases_of_not_away (closed_not_away hP hw hc),
      not_mem_of_count_eq_zero (by omega), not_mem_of_count_eq_zero (by omega)⟩
  · intro j w hl
    obtain ⟨ws, hws, hcl, haw⟩ := closing_open hP hl
    have h1 : 0 < List.count w s.shut := List.count_pos_iff.mpr (hP.closingShut j w hl)
    have h2 := hP.once w
    have h3 := created_le_one s.workers w
    refine ⟨ws, hws, ?_, not_mem_of_count_eq_zero (by omega),
      not_mem_of_count_eq_zero (by omega)⟩
    rcases idle_cases_of_not_away haw with h4 | h4 | h4
    · exact Or.inl h4
    · exact Or.inr h4
    · have := hP.exitedClosed w ws hws h4
      rw [hcl] at this
      cases this

/-- C8 (witness): the theorem at a pool of three workers and two units closed
by the caller while worker 0 executes unit 0 and a match goroutine holds the
handle of worker 1 with unit 1: the worker the shutdown loop is about to
close, and then has closed, is worker 2, which is blocked in `range w`; the
channels of workers 0 and 1 are open. -/
theorem C8_witness :
    Reachable (start 3 (unitsUpTo 2)) shutState
      ∧ (∃ ws, shutState.workers[2]? = some ws ∧ (ws.phase = .launch ∨ ws.phase = .idle)
          ∧ 2 ∉ shutState.holding.map Prod.fst ∧ 2 ∉ shutState.reg)
      ∧ Reachable (start 3 (unitsUpTo 2)) shutState2
      ∧ shutState2.workers[0]? = some ⟨.busy 0, false⟩
      ∧ shutState2.workers[1]? = some ⟨.idle, false⟩
      ∧ shutState2.holding = [(1, some 1)]
      ∧ shutState2.workers[2]? = some ⟨.idle, true⟩
      ∧ (∀ (i : Nat) (ws : WorkerSt), shutState2.workers[i]? = some ws → ws.closed = true →
          (ws.phase = .launch ∨ ws.phase = .idle ∨ ws.phase = .exited)
            ∧ i ∉ shutState2.holding.map Prod.fst ∧ i ∉ shutState2.reg) :=
  ⟨⟨shutSchedule, by decide⟩,
    (C8_closed_only_when_idle 3 (unitsUpTo 2) shutState ⟨shutSchedule, by decide⟩).2.1 0 2 rfl,
    ⟨shutSchedule ++ [.shutClose], by decide⟩, rfl, rfl, rfl, rfl,
    (C8_closed_only_when_idle 3 (unitsUpTo 2) shutState2
      ⟨shutSchedule ++ [.shutClose], by decide⟩).1⟩

/-- C9 (counterexample): in a pool of size 2, a reachable state has the unit
matched, delivered and begun by worker 0 while worker 1 has not registered and
the registry is empty. -/
theorem C9_counterexample :
    Reachable (start 2 [some 0]) eagerState ∧ eagerState.started = [0]
      ∧ eagerState.workers[1]? = some ⟨.announce, false⟩ ∧ eagerState.reg = []
      ∧ unregistered eagerState = 1 :=
  ⟨⟨eagerSchedule, by decide⟩, rfl, rfl, rfl, by decide⟩

/-- C9 (amended): in every reachable state of a pool of size `N` in which a
unit has been received from the queue, a match goroutine holds a handle or a
unit has been begun, all `N` workers have been created and the loop creating
them has ended; and every handle held by a match goroutine is that of a
created worker that has registered and whose channel is open. The other
workers need not have registered. -/
theorem C9_workers_created_before_any_match (N : Nat) (units : List Work) (s : State)
    (h : Reachable (start N units) s) :
    (s.accepted ≠ [] ∨ s.holding ≠ [] ∨ s.started ≠ [] →
        s.workers.length = N ∧ ∀ i, s.loop ≠ .spawning i)
      ∧ (∀ (k w : Nat) (u : Work), s.holding[k]? = some (w, u) →
          ∃ ws : WorkerSt, s.workers[w]? = some ws
            ∧ (ws.phase = .launch ∨ ws.phase = .idle) ∧ ws.closed = false) := by
  obtain ⟨hC, hP, hS⟩ := inv_reachable h
  have hcap := cap_reachable h
  refine ⟨?_, ?_⟩
  · intro hor
    have c8 := hC.acceptedCount
    have hacc : s.accepted ≠ [] := by
      intro he
      rw [he, List.length_nil] at c8
      rcases hor with h1 | h1 | h1
      · exact h1 he
      · exact h1 (List.length_eq_zero.mp (by omega))
      · exact h1 (List.length_eq_zero.mp (by omega))
    have hns : ∀ i, s.loop ≠ .spawning i := fun i hl => hacc (hC.quiet i hl)
    refine ⟨?_, hns⟩
    have c1 := hC.spawned
    cases hl : s.loop with
    | spawning i => exact absurd hl (hns i)
    | ranging => simp only [hl, spawnedOf] at c1; omega
    | taking i => simp only [hl, spawnedOf] at c1; omega
    | closing i w => simp only [hl, spawnedOf] at c1; omega
    | finished => simp only [hl, spawnedOf] at c1; omega
  · intro k w u hk
    obtain ⟨ws, hws, hcl, haw⟩ := holding_open hP hk
    refine ⟨ws, hws, ?_, hcl⟩
    rcases idle_cases_of_not_away haw with h4 | h4 | h4
    · exact Or.inl h4
    · exact Or.inr h4
    · have := hP.exitedClosed w ws hws h4
      rw [hcl] at this
      cases this

/-- C9 (witness): the amended theorem at the state of the counterexample. -/
theorem C9_witness :
    Reachable (start 2 [some 0]) eagerState
      ∧ eagerState.workers.length = 2 ∧ ∀ i, eagerState.loop ≠ .spawning i :=
  ⟨⟨eagerSchedule, by decide⟩,
    (C9_workers_created_before_any_match 2 [some 0] eagerState
      ⟨eagerSchedule, by decide⟩).1 (Or.inl (by decide))⟩

end Workqueue
